import Mathlib

/-!
Verification of the `ssfmt` ECMA-376 number-format engine.

This file shallowly embeds the Rust sources of the repository (lexer,
parser, section selection, number/date/fraction formatting, and the
date-serial calendar arithmetic) as executable Lean definitions and
proves, or refutes, the frozen specification claims about them.

Modelling conventions, used consistently below:

* Rust `f64` is modelled by `ℚ` (exact rational arithmetic).  Every claim
  is settled either at dyadic-rational inputs at which all the `f64`
  operations performed by the code are exact (so the rational model and
  the IEEE semantics agree), or by integer-level reasoning that does not
  depend on rounding of binary floating point.  `f64::EPSILON` is the
  exact value `2⁻⁵²`.
* Rust `i64`/`i32` arithmetic is modelled by `Int` with truncated
  division/remainder (`Int.tdiv`, `Int.tmod`), matching Rust's `/` and
  `%`.  The values arising in the claims stay far from the overflow
  boundaries, where the two agree.  A numeric `as`-cast to an unsigned
  type is modelled by reduction modulo 2^width (Rust wrapping-cast
  semantics).
* Rust `String`/`&str` is modelled by Lean `String`; byte positions agree
  with character positions on the (ASCII) inputs of the claims, and the
  lexer advances positions by `Char.utf8Size` exactly as the Rust code
  advances byte offsets.
-/

namespace Ssfmt

/-- Kernel-computable floor of a rational (`⌊x⌋ = x.num / x.den`,
Euclidean division by the positive denominator). -/
def qfloor (x : ℚ) : ℤ := x.num / (x.den : ℤ)

/-- Kernel-computable ceiling of a rational. -/
def qceil (x : ℚ) : ℤ := -qfloor (-x)

/-- `qfloor` agrees with the floor of the ordered field `ℚ`. -/
theorem qfloor_eq (x : ℚ) : qfloor x = ⌊x⌋ := Rat.floor_def.symm

/-- `qceil` agrees with the ceiling of the ordered field `ℚ`. -/
theorem qceil_eq (x : ℚ) : qceil x = ⌈x⌉ := by
  rw [qceil, qfloor_eq, Int.floor_neg, neg_neg]

/-- Truncation toward zero, the semantics of Rust `f64::trunc`. -/
def qtrunc (x : ℚ) : ℤ := if 0 ≤ x then qfloor x else qceil x

/-- Rust `f64::fract`: `self - self.trunc()`. -/
def qfract (x : ℚ) : ℚ := x - (qtrunc x : ℚ)

/-- Rust `f64::round`: rounding half away from zero. -/
def qround (x : ℚ) : ℤ := if 0 ≤ x then qfloor (x + 1/2) else qceil (x - 1/2)

/-- The exact value of `f64::EPSILON`, namely `2⁻⁵²`. -/
def f64Epsilon : ℚ := 1 / 2 ^ 52

/-- Rust `i64 as u32`: keep the low 32 bits (wrapping cast). -/
def castU32 (x : ℤ) : ℕ := (x % (2 ^ 32 : ℤ)).toNat

/-! ## Calendar arithmetic (`src/date_serial.rs`) -/

/-- The two Excel date systems (`src/options.rs`, enum `DateSystem`). -/
inductive DateSystem where
  | date1900
  | date1904
  deriving DecidableEq, Repr

/-- Embeds `serial_to_date_1900` (src/date_serial.rs lines 55-98): the
O(1) Fliegel–Van Flandern conversion with the Excel phantom-leap-day
special cases for days `< 60` and `= 60`. -/
def serialToDate1900 (days : ℤ) : Option (ℤ × ℤ × ℤ) :=
  if days = 60 then some (1900, 2, 29)
  else if days < 60 then
    if days < 32 then some (1900, 1, days)
    else some (1900, 2, days - 31)
  else
    let ord := days
    let l₀ := ord + 68569 + 2415019
    let n := Int.tdiv (4 * l₀) 146097
    let l₁ := l₀ - Int.tdiv (146097 * n + 3) 4
    let i := Int.tdiv (4000 * (l₁ + 1)) 1461001
    let l₂ := l₁ - Int.tdiv (1461 * i) 4 + 31
    let j := Int.tdiv (80 * l₂) 2447
    let nDay := l₂ - Int.tdiv (2447 * j) 80
    let l₃ := Int.tdiv j 11
    let nMonth := j + 2 - 12 * l₃
    let nYear := 100 * (n - 49) + i + l₃
    some (nYear, nMonth, nDay)

/-- Embeds `serial_to_date_1904` (src/date_serial.rs lines 103-108):
offset by 1462 days into the 1900 system. -/
def serialToDate1904 (days : ℤ) : Option (ℤ × ℤ × ℤ) :=
  serialToDate1900 (days + 1462)

/-- Embeds `serial_to_date` (src/date_serial.rs lines 38-49). -/
def serialToDate (serial : ℚ) (system : DateSystem) : Option (ℤ × ℤ × ℤ) :=
  let days : ℤ := qfloor serial
  if days < 1 then none
  else
    match system with
    | .date1900 => serialToDate1900 days
    | .date1904 => serialToDate1904 days

/-- Embeds `date_to_serial_1900` (src/date_serial.rs lines 177-208):
Howard Hinnant's civil-date formula plus the phantom-leap-day shift. -/
def dateToSerial1900 (year month day : ℤ) : ℚ :=
  if year = 1900 ∧ month = 2 ∧ day = 29 then 60
  else
    let y := year - (if month ≤ 2 then 1 else 0)
    let era := Int.tdiv (if 0 ≤ y then y else y - 399) 400
    let yoe := y - era * 400
    let m := month
    let d := day
    let doy := Int.tdiv (153 * (m + (if 2 < m then -3 else 9)) + 2) 5 + d - 1
    let doe := yoe * 365 + Int.tdiv yoe 4 - Int.tdiv yoe 100 + doy
    let daysSinceEpoch := era * 146097 + doe - 719468
    let serial := daysSinceEpoch + 25568
    let serial := if 60 ≤ serial then serial + 1 else serial
    (serial : ℚ)

/-- Embeds `date_to_serial_1904` (src/date_serial.rs lines 213-217). -/
def dateToSerial1904 (year month day : ℤ) : ℚ :=
  dateToSerial1900 year month day - 1462

/-- Embeds `date_to_serial` (src/date_serial.rs lines 167-172). -/
def dateToSerial (year month day : ℤ) (system : DateSystem) : ℚ :=
  match system with
  | .date1900 => dateToSerial1900 year month day
  | .date1904 => dateToSerial1904 year month day

/-- Embeds `serial_to_time_impl` (src/date_serial.rs lines 133-153):
total seconds in the fractional day, rounded or truncated, then split
into hours, minutes, seconds.  The `as u32` cast of the nonnegative
float is truncation. -/
def serialToTimeImpl (serial : ℚ) (roundSeconds : Bool) : ℤ × ℤ × ℤ :=
  let fraction := |qfract serial|
  let totalSeconds : ℤ :=
    if roundSeconds then qround (fraction * 86400) else qfloor (fraction * 86400)
  let hours := Int.tmod (Int.tdiv totalSeconds 3600) 24
  let minutes := Int.tdiv (Int.tmod totalSeconds 3600) 60
  let seconds := Int.tmod totalSeconds 60
  (hours, minutes, seconds)

/-- Embeds `serial_to_time_with_rounding` (src/date_serial.rs lines 129-131). -/
def serialToTimeWithRounding (serial : ℚ) (roundSeconds : Bool) : ℤ × ℤ × ℤ :=
  serialToTimeImpl serial roundSeconds

/-- Embeds `serial_to_weekday` (src/date_serial.rs lines 228-246).  The
input is the already-floored integer day count (`serial.floor() as i64`);
the result models the Rust `u32` return value, including the wrapping
`as u32` cast of the possibly negative 1904-branch intermediate. -/
def serialToWeekday (days : ℤ) (system : DateSystem) : ℕ :=
  match system with
  | .date1900 =>
      (Int.tmod (Int.tmod (days - 1) 7 + 7) 7 + 1).toNat
  | .date1904 =>
      castU32 (Int.tmod (days + 5) 7 + 1)

/-! ## AST model (`src/ast.rs`) -/

/-- Named colors (`src/ast.rs`, enum `NamedColor`). -/
inductive NamedColor where
  | black | blue | cyan | green | magenta | red | white | yellow
  deriving DecidableEq, Repr

/-- Color specification (`src/ast.rs`, enum `Color`). -/
inductive Color where
  | named (c : NamedColor)
  | indexed (i : ℕ)
  deriving DecidableEq, Repr

/-- Section conditions (`src/ast.rs`, enum `Condition`); the threshold is
an `f64`, modelled by `ℚ`. -/
inductive Condition where
  | greaterThan (n : ℚ)
  | lessThan (n : ℚ)
  | equal (n : ℚ)
  | greaterOrEqual (n : ℚ)
  | lessOrEqual (n : ℚ)
  | notEqual (n : ℚ)
  deriving DecidableEq, Repr

/-- Embeds `Condition::evaluate` (src/ast.rs lines 57-66). -/
def Condition.evaluate : Condition → ℚ → Bool
  | .greaterThan n, v => n < v
  | .lessThan n, v => v < n
  | .equal n, v => |v - n| < f64Epsilon
  | .greaterOrEqual n, v => n ≤ v
  | .lessOrEqual n, v => v ≤ n
  | .notEqual n, v => f64Epsilon ≤ |v - n|

/-- Embeds `Condition::is_strict_match` (src/ast.rs lines 71-80). -/
def Condition.isStrictMatch : Condition → ℚ → Bool
  | .greaterThan n, v => n < v
  | .lessThan n, v => v < n
  | .equal n, v => |v - n| < f64Epsilon
  | .greaterOrEqual n, v => n < v
  | .lessOrEqual n, v => v < n
  | .notEqual n, v => f64Epsilon ≤ |v - n|

/-- Digit placeholders (`src/ast.rs`, enum `DigitPlaceholder`). -/
inductive DigitPlaceholder where
  | zero | hash | question
  deriving DecidableEq, Repr

/-- Embeds `DigitPlaceholder::is_required` (src/ast.rs lines 96-98). -/
def DigitPlaceholder.isRequired : DigitPlaceholder → Bool
  | .zero => true
  | _ => false

/-- Embeds `DigitPlaceholder::empty_char` (src/ast.rs lines 101-107). -/
def DigitPlaceholder.emptyChar : DigitPlaceholder → Option Char
  | .zero => some '0'
  | .hash => none
  | .question => some ' '

/-- Date/time parts (`src/ast.rs`, enum `DatePart`). -/
inductive DatePart where
  | year2 | year3 | year4
  | month | month2 | monthAbbr | monthFull | monthLetter
  | day | day2 | dayAbbr | dayFull
  | hour | hour2
  | minute | minute2
  | second | second2
  | subSecond (places : ℕ)
  | buddhistYear2 | buddhistYear4 | buddhistYear4Alt | buddhistYear2Alt
  deriving DecidableEq, Repr

/-- AM/PM styles (`src/ast.rs`, enum `AmPmStyle`), including the two
malformed styles for the `AM/P` pattern documented in the source. -/
inductive AmPmStyle where
  | upper | lower | shortUpper | shortLower | malformedUpper | malformedLower
  deriving DecidableEq, Repr

/-- Elapsed-time parts (`src/ast.rs`, enum `ElapsedPart`).  Per the
source doc comments, `hours2`/`minutes2`/`seconds2` are the zero-padded
two-letter bracket forms. -/
inductive ElapsedPart where
  | hours | hours2 | minutes | minutes2 | seconds | seconds2
  deriving DecidableEq, Repr

/-- Fraction denominator spec (`src/ast.rs`, enum `FractionDenom`). -/
inductive FractionDenom where
  | upToDigits (k : ℕ)
  | fixed (d : ℕ)
  deriving DecidableEq, Repr

/-- Locale code from `[$…]` (`src/ast.rs`, struct `LocaleCode`). -/
structure LocaleCode where
  currency : Option String
  lcid : Option ℕ
  deriving DecidableEq, Repr

/-- Format parts (`src/ast.rs`, enum `FormatPart`).  The `fraction`
variant carries the whitespace fields declared in `src/ast.rs` and used
by `src/formatter/fraction.rs`. -/
inductive FormatPart where
  | literal (s : String)
  | escapedLiteral (s : String)
  | digit (p : DigitPlaceholder)
  | decimalPoint
  | thousandsSeparator
  | percent
  | scientific (upper showPlus : Bool)
  | fraction (integerDigits numeratorDigits : List DigitPlaceholder)
      (denominator : FractionDenom) (spaceBeforeSlash spaceAfterSlash : String)
  | datePart (p : DatePart)
  | amPm (style : AmPmStyle)
  | elapsed (p : ElapsedPart)
  | textPlaceholder
  | fill (c : Char)
  | skip (c : Char)
  | locale (code : LocaleCode)
  | generalNumber
  deriving DecidableEq, Repr

/-- Embeds `FormatPart::is_date_part` (src/ast.rs lines 266-271). -/
def FormatPart.isDatePart : FormatPart → Bool
  | .datePart _ => true
  | .amPm _ => true
  | .elapsed _ => true
  | _ => false

/-- Embeds `FormatPart::is_numeric_part` (src/ast.rs lines 274-284). -/
def FormatPart.isNumericPart : FormatPart → Bool
  | .digit _ => true
  | .decimalPoint => true
  | .thousandsSeparator => true
  | .percent => true
  | .scientific _ _ => true
  | .fraction _ _ _ _ _ => true
  | _ => false

/-- A format section (`src/ast.rs`, struct `Section`) as the parser
builds it: condition, color, parts.  The `metadata` field of the struct
is recomputed on demand by `sectionMetadata` below. -/
structure Section where
  condition : Option Condition
  color : Option Color
  parts : List FormatPart
  deriving DecidableEq, Repr

/-- Embeds `Section::has_date_parts` (src/ast.rs lines 369-371). -/
def Section.hasDateParts (s : Section) : Bool :=
  s.parts.any (·.isDatePart)

/-- Embeds `Section::has_text_placeholder` (src/ast.rs lines 374-378). -/
def Section.hasTextPlaceholder (s : Section) : Bool :=
  s.parts.any (fun p => p matches .textPlaceholder)

/-- The compiled format (`src/ast.rs`, struct `NumberFormat`). -/
structure NumberFormat where
  sections : List Section
  deriving DecidableEq, Repr

/-- Embeds `NumberFormat::from_sections` (src/ast.rs lines 398-405):
silently keeps at most four sections. -/
def NumberFormat.fromSections (sections : List Section) : NumberFormat :=
  ⟨sections.take 4⟩

/-- The smallest displayed time unit (`src/ast.rs`, enum `TimeUnit`). -/
inductive TimeUnit where
  | none | hours | minutes | seconds | subseconds
  deriving DecidableEq, Repr

/-- Pre-computed per-section metadata (`src/ast.rs`,
struct `SectionMetadata`); only the fields consumed by the date
formatter are modelled. -/
structure SectionMetadata where
  hasAmpm : Bool
  isHijri : Bool
  maxSubsecondPrecision : Option ℕ
  smallestTimeUnit : TimeUnit
  deriving DecidableEq, Repr

/-- Modelled from the spec: the metadata computation (`spec.md` §4.D
phase 4) that fills `SectionMetadata` after the parser's post-passes.
The code populating the `metadata` field is not part of the source
snapshot (the parser in src/ builds sections without it), so this
follows the spec's description: a single scan recording the presence of
AM/PM, whether a `B2` (Hijri) date part appears, the maximum subsecond
precision, and the least granular time unit actually shown in the order
Hours > Minutes > Seconds > Subseconds. -/
def computeMetadata (parts : List FormatPart) : SectionMetadata :=
  let hasAmpm := parts.any (fun p => p matches .amPm _)
  let isHijri := parts.any (fun p =>
    p matches .datePart .buddhistYear4Alt || p matches .datePart .buddhistYear2Alt)
  let subsecs := parts.filterMap (fun p =>
    match p with
    | .datePart (.subSecond n) => some n
    | _ => none)
  let maxSubsecondPrecision := subsecs.max?
  let hasHour := parts.any (fun p =>
    p matches .datePart .hour || p matches .datePart .hour2)
  let hasMinute := parts.any (fun p =>
    p matches .datePart .minute || p matches .datePart .minute2)
  let hasSecond := parts.any (fun p =>
    p matches .datePart .second || p matches .datePart .second2)
  let smallest : TimeUnit :=
    if subsecs ≠ [] then .subseconds
    else if hasSecond then .seconds
    else if hasMinute then .minutes
    else if hasHour then .hours
    else .none
  ⟨hasAmpm, isHijri, maxSubsecondPrecision, smallest⟩

/-- Metadata of a section, recomputed from its parts (stands in for the
stored `Section::metadata` field). -/
def sectionMetadata (s : Section) : SectionMetadata :=
  computeMetadata s.parts

/-! ## Locale data and options (`src/locale/builtin.rs`, `src/options.rs`) -/

/-- Locale settings (`src/locale/builtin.rs`, struct `Locale`). -/
structure Locale where
  decimalSeparator : Char
  thousandsSeparator : Char
  currencySymbol : String
  amString : String
  pmString : String
  monthNamesShort : List String
  monthNamesFull : List String
  dayNamesShort : List String
  dayNamesFull : List String
  deriving DecidableEq, Repr

/-- Embeds `Locale::en_us` (src/locale/builtin.rs lines 25-61), the
default locale. -/
def Locale.enUs : Locale where
  decimalSeparator := '.'
  thousandsSeparator := ','
  currencySymbol := "$"
  amString := "AM"
  pmString := "PM"
  monthNamesShort :=
    ["Jan", "Feb", "Mar", "Apr", "May", "Jun",
     "Jul", "Aug", "Sep", "Oct", "Nov", "Dec"]
  monthNamesFull :=
    ["January", "February", "March", "April", "May", "June", "July",
     "August", "September", "October", "November", "December"]
  dayNamesShort := ["Sun", "Mon", "Tue", "Wed", "Thu", "Fri", "Sat"]
  dayNamesFull :=
    ["Sunday", "Monday", "Tuesday", "Wednesday", "Thursday", "Friday",
     "Saturday"]

/-- Formatting options (`src/options.rs`, struct `FormatOptions`). -/
structure FormatOptions where
  dateSystem : DateSystem
  locale : Locale
  deriving DecidableEq, Repr

/-- The default options: 1900 date system with the en-US locale. -/
def defaultOpts : FormatOptions :=
  ⟨.date1900, Locale.enUs⟩

/-! ## Errors (`src/error.rs`) -/

/-- Parse errors (`src/error.rs`, enum `ParseError`). -/
inductive ParseError where
  | unexpectedToken (position : ℕ) (found : Char)
  | unterminatedBracket (position : ℕ)
  | invalidCondition (position : ℕ) (reason : String)
  | invalidLocaleCode (position : ℕ)
  | tooManySections
  | emptyFormat
  deriving DecidableEq, Repr

/-- Format errors (`src/error.rs`, enum `FormatError`). -/
inductive FormatError where
  | typeMismatch (expected got : String)
  | dateOutOfRange (serial : ℚ)
  | invalidSerialNumber (value : ℚ)
  deriving DecidableEq, Repr

/-- Decidable equality for `Except` results. -/
instance {ε α : Type} [DecidableEq ε] [DecidableEq α] :
    DecidableEq (Except ε α) := fun x y =>
  match x, y with
  | .ok a, .ok b =>
      if h : a = b then isTrue (by rw [h])
      else isFalse (by intro hc; cases hc; exact h rfl)
  | .error a, .error b =>
      if h : a = b then isTrue (by rw [h])
      else isFalse (by intro hc; cases hc; exact h rfl)
  | .ok _, .error _ => isFalse (by intro hc; cases hc)
  | .error _, .ok _ => isFalse (by intro hc; cases hc)

/-! ## Lexer (`src/parser/tokens.rs`, `src/parser/lexer.rs`)

The Rust lexer is generated by `logos` from the regex rules on
`RawToken` (src/parser/lexer.rs lines 13-123), with bracket content and
letter runs re-expanded into individual tokens by `Lexer::next_token`.
The embedding reproduces the resulting token stream rule by rule:

* maximal munch with the source's priorities (keywords and the bracket /
  quote / escape patterns at priority 10 beat the single-char rules,
  which beat the catch-all `.`);
* an unterminated quote or bracket is a lexer error at the opening
  character: the generated DFA cannot back out of the `"[^"]*"` /
  `\[[^\]]*\]` loops to re-match the opening character as the catch-all
  (behavior pinned by `tests/lexer_tests.rs::test_lex_unterminated_quote`,
  which asserts that lexing `"USD` is an error), and `Lexer::next_token`
  maps the error span to `ParseError::UnexpectedToken` at its start;
* a failed fixed keyword attempt (`(?i)General`, `(?i)AM/PM`, `(?i)A/P`)
  falls back to the catch-all for its first character, the DFA's last
  accepting state;
* the catch-all regex `.` does not match a newline, so a raw newline is
  an `UnexpectedToken` error.
-/

/-- Tokens (`src/parser/tokens.rs`, enum `Token`).  `general`,
`buddhistYear` and `buddhistYearUpper` are produced by
`Lexer::convert_raw_token` in src/parser/lexer.rs. -/
inductive Token where
  | literal (c : Char)
  | escapedChar (c : Char)
  | quotedString (s : String)
  | zero | hash | question
  | decimalPoint | thousandsSep | sectionSep
  | percent | atSign | asterisk | underscore
  | exponentUpper | exponentLower | plus | minus
  | slash
  | year | month | day | hour | second
  | buddhistYear | buddhistYearUpper
  | openBracket | closeBracket
  | amPm (s : String)
  | general
  | eof
  deriving DecidableEq, Repr

/-- A token with its byte span (`src/parser/tokens.rs`,
struct `SpannedToken`; `stop` is the struct's `end` field). -/
structure SpannedToken where
  token : Token
  start : ℕ
  stop : ℕ
  deriving DecidableEq, Repr

/-- ASCII lowercasing, as used by the `(?i)` regex flags and
`eq_ignore_ascii_case` on the ASCII inputs involved. -/
def asciiLower (c : Char) : Char :=
  if 'A' ≤ c ∧ c ≤ 'Z' then Char.ofNat (c.toNat + 32) else c

/-- Case-insensitive keyword prefix match: returns the matched original
slice and the remaining characters. -/
def ciPrefix? : List Char → List Char → Option (List Char × List Char)
  | [], cs => some ([], cs)
  | _ :: _, [] => none
  | k :: ks, c :: cs =>
      if asciiLower c = asciiLower k then
        (ciPrefix? ks cs).map (fun p => (c :: p.1, p.2))
      else none

/-- Splits a character list at the first occurrence of `t`, returning
the part before and the part after it. -/
def splitAtChar? (t : Char) : List Char → Option (List Char × List Char)
  | [] => none
  | c :: cs =>
      if c = t then some ([], cs)
      else (splitAtChar? t cs).map (fun p => (c :: p.1, p.2))

/-- Total UTF-8 byte length of a character list. -/
def utf8Len (cs : List Char) : ℕ := cs.foldl (fun a c => a + c.utf8Size) 0

/-- Token for one character inside `[...]` brackets
(`Lexer::expand_bracket_content`, src/parser/lexer.rs lines 407-435). -/
def bracketCharToken (c : Char) : Token :=
  if c = '0' then .zero
  else if c = '#' then .hash
  else if c = '?' then .question
  else if c = '.' then .decimalPoint
  else if c = ',' then .thousandsSep
  else if c = '%' then .percent
  else if c = '@' then .atSign
  else if c = '*' then .asterisk
  else if c = '_' then .underscore
  else if c = '+' then .plus
  else if c = '-' then .minus
  else if c = '/' then .slash
  else .literal c

/-- Spanned tokens for the characters of a bracket's content. -/
def bracketContentTokens : List Char → ℕ → List SpannedToken
  | [], _ => []
  | c :: cs, pos =>
      ⟨bracketCharToken c, pos, pos + c.utf8Size⟩ ::
        bracketContentTokens cs (pos + c.utf8Size)

/-- Spanned tokens for a run of `n` identical date letters starting at
`pos` (the `pending_run` expansion of `Lexer::next_token`). -/
def runTokens (t : Token) : ℕ → ℕ → List SpannedToken
  | 0, _ => []
  | n + 1, pos => ⟨t, pos, pos + 1⟩ :: runTokens t n (pos + 1)

/-- Token kind of a date-letter run, keyed by the run's first character
(`Lexer::convert_raw_token`, src/parser/lexer.rs lines 286-357; a `[bB]+`
run's kind is decided by its first character). -/
def runKind (c : Char) : Option (Token × (Char → Bool)) :=
  if c = 'y' ∨ c = 'Y' then some (.year, fun x => x = 'y' ∨ x = 'Y')
  else if c = 'm' ∨ c = 'M' then some (.month, fun x => x = 'm' ∨ x = 'M')
  else if c = 'd' ∨ c = 'D' then some (.day, fun x => x = 'd' ∨ x = 'D')
  else if c = 'h' ∨ c = 'H' then some (.hour, fun x => x = 'h' ∨ x = 'H')
  else if c = 's' ∨ c = 'S' then some (.second, fun x => x = 's' ∨ x = 'S')
  else if c = 'B' then some (.buddhistYearUpper, fun x => x = 'b' ∨ x = 'B')
  else if c = 'b' then some (.buddhistYear, fun x => x = 'b' ∨ x = 'B')
  else none

/-- Single-character tokens outside brackets
(`Lexer::convert_raw_token`, src/parser/lexer.rs lines 359-380). -/
def singleCharToken (c : Char) : Option Token :=
  if c = '0' then some .zero
  else if c = '#' then some .hash
  else if c = '?' then some .question
  else if c = '.' then some .decimalPoint
  else if c = ',' then some .thousandsSep
  else if c = ';' then some .sectionSep
  else if c = '%' then some .percent
  else if c = '@' then some .atSign
  else if c = '*' then some .asterisk
  else if c = '_' then some .underscore
  else if c = 'E' then some .exponentUpper
  else if c = 'e' then some .exponentLower
  else if c = '+' then some .plus
  else if c = '-' then some .minus
  else if c = '/' then some .slash
  else if c = '(' then some (.literal '(')
  else if c = ')' then some (.literal ')')
  else if c = ' ' then some (.literal ' ')
  else none

/-- One lexer step at character `c` (remaining input `rest`, byte
position `pos`): the emitted tokens, the remaining input, and the new
position, or a lexer error. -/
def lexStep (c : Char) (rest : List Char) (pos : ℕ) :
    Except ParseError (List SpannedToken × List Char × ℕ) :=
  if c = '[' then
    match splitAtChar? ']' rest with
    | some (content, rest') =>
        let stop := pos + 1 + utf8Len content + 1
        .ok (⟨.openBracket, pos, pos + 1⟩ ::
              bracketContentTokens content (pos + 1) ++
              [⟨.closeBracket, stop - 1, stop⟩],
             rest', stop)
    | none => .error (.unexpectedToken pos '[')
  else if c = '"' then
    match splitAtChar? '"' rest with
    | some (content, rest') =>
        let stop := pos + 1 + utf8Len content + 1
        .ok ([⟨.quotedString (String.mk content), pos, stop⟩], rest', stop)
    | none => .error (.unexpectedToken pos '"')
  else if c = '\\' then
    match rest with
    | c₂ :: rest' =>
        if c₂ = '\n' then .error (.unexpectedToken pos '\\')
        else
          .ok ([⟨.escapedChar c₂, pos, pos + 1 + c₂.utf8Size⟩], rest',
               pos + 1 + c₂.utf8Size)
    | [] => .error (.unexpectedToken pos '\\')
  else if c = 'g' ∨ c = 'G' then
    match ciPrefix? "general".data (c :: rest) with
    | some (_, rest') => .ok ([⟨.general, pos, pos + 7⟩], rest', pos + 7)
    | none => .ok ([⟨.literal c, pos, pos + 1⟩], rest, pos + 1)
  else if c = 'a' ∨ c = 'A' then
    match ciPrefix? "am/pm".data (c :: rest) with
    | some (slice, rest') =>
        .ok ([⟨.amPm (String.mk slice), pos, pos + 5⟩], rest', pos + 5)
    | none =>
        match ciPrefix? "a/p".data (c :: rest) with
        | some (slice, rest') =>
            .ok ([⟨.amPm (String.mk slice), pos, pos + 3⟩], rest', pos + 3)
        | none => .ok ([⟨.literal c, pos, pos + 1⟩], rest, pos + 1)
  else
    match runKind c with
    | some (t, cls) =>
        let n := 1 + (rest.takeWhile cls).length
        .ok (runTokens t n pos, rest.dropWhile cls, pos + n)
    | none =>
        match singleCharToken c with
        | some t => .ok ([⟨t, pos, pos + 1⟩], rest, pos + 1)
        | none =>
            if c = '\n' then .error (.unexpectedToken pos '\n')
            else .ok ([⟨.literal c, pos, pos + c.utf8Size⟩], rest,
                      pos + c.utf8Size)

/-- Splitting at a character strictly shortens the part after it. -/
theorem splitAtChar?_snd_length {t : Char} :
    ∀ {cs : List Char} {p : List Char × List Char}, splitAtChar? t cs = some p →
      p.2.length < cs.length := by
  intro cs
  induction cs with
  | nil => intro p h; simp [splitAtChar?] at h
  | cons x xs ih =>
      intro p h
      by_cases hx : x = t
      · simp only [splitAtChar?, if_pos hx, Option.some.injEq] at h
        subst h
        simp
      · simp only [splitAtChar?, if_neg hx, Option.map_eq_some'] at h
        obtain ⟨q, hq, hqe⟩ := h
        subst hqe
        have := ih hq
        simpa using Nat.lt_succ_of_lt this

/-- A nonempty case-insensitive keyword match strictly shortens the
input. -/
theorem ciPrefix?_snd_length :
    ∀ (ks : List Char) {cs : List Char} {p : List Char × List Char},
      ciPrefix? ks cs = some p → ks ≠ [] → p.2.length < cs.length := by
  intro ks
  induction ks with
  | nil => intro cs p _ hne; exact absurd rfl hne
  | cons k ks ih =>
      intro cs p h _
      cases cs with
      | nil => simp [ciPrefix?] at h
      | cons c cs =>
          simp only [ciPrefix?] at h
          split at h
          · simp only [Option.map_eq_some'] at h
            obtain ⟨q, hq, hqe⟩ := h
            subst hqe
            rcases ks with _ | ⟨k₂, ks⟩
            · cases cs with
              | nil =>
                  simp [ciPrefix?] at hq
                  subst hq
                  simp
              | cons c₂ cs =>
                  simp only [ciPrefix?, Option.some.injEq] at hq
                  subst hq
                  simp
            · have := ih hq (by simp)
              simpa using Nat.lt_succ_of_lt this
          · simp at h

/-- Dropping a prefix cannot lengthen a list. -/
theorem length_dropWhile_le (p : Char → Bool) (l : List Char) :
    (l.dropWhile p).length ≤ l.length := by
  induction l with
  | nil => simp
  | cons x xs ih =>
      by_cases h : p x <;> simp [List.dropWhile_cons, h] <;> omega

/-- A lexer step never grows the remaining input. -/
theorem lexStep_shrinks {c : Char} {rest : List Char} {pos : ℕ}
    {out : List SpannedToken × List Char × ℕ}
    (h : lexStep c rest pos = .ok out) : out.2.1.length ≤ rest.length := by
  unfold lexStep at h
  split at h
  · -- bracket
    split at h
    next heq =>
      cases h
      exact Nat.le_of_lt (splitAtChar?_snd_length heq)
    next => cases h
  split at h
  · -- quote
    split at h
    next heq =>
      cases h
      exact Nat.le_of_lt (splitAtChar?_snd_length heq)
    next => cases h
  split at h
  · -- escape
    split at h
    next c₂ rest' =>
      split at h
      · cases h
      · cases h
        simp
    next => cases h
  split at h
  · -- General keyword
    split at h
    next heq =>
      cases h
      have := ciPrefix?_snd_length "general".data heq (by simp)
      simpa using Nat.lt_succ_iff.mp this
    next =>
      cases h
      exact Nat.le_refl _
  split at h
  · -- AM/PM keywords
    split at h
    next heq =>
      cases h
      have := ciPrefix?_snd_length "am/pm".data heq (by simp)
      simpa using Nat.lt_succ_iff.mp this
    next =>
      split at h
      next heq₂ =>
        cases h
        have := ciPrefix?_snd_length "a/p".data heq₂ (by simp)
        simpa using Nat.lt_succ_iff.mp this
      next =>
        cases h
        exact Nat.le_refl _
  · -- runs, single chars, catch-all
    split at h
    next =>
      cases h
      simpa using length_dropWhile_le _ _
    next =>
      split at h
      next =>
        cases h
        exact Nat.le_refl _
      next =>
        split at h
        · cases h
        · cases h
          exact Nat.le_refl _

/-- Fuel-driven tokenization loop; by `lexStep_shrinks` every step
consumes at least one character, so fuel exceeding the input length
never runs out and the fuel-exhaustion branch (which behaves like end of
input) is dead. -/
def tokenizeGo : ℕ → List Char → ℕ → List SpannedToken × Option ParseError
  | 0, _, pos => ([⟨.eof, pos, pos⟩], none)
  | _ + 1, [], pos => ([⟨.eof, pos, pos⟩], none)
  | fuel + 1, c :: rest, pos =>
      match lexStep c rest pos with
      | .error e => ([], some e)
      | .ok (ts, rest', pos') =>
          let (ts₂, e) := tokenizeGo fuel rest' pos'
          (ts ++ ts₂, e)

/-- Tokenizes a whole input, returning the tokens produced before any
lexer error together with that error; a complete tokenization ends with
the `eof` token (`Lexer::next_token` returns `Eof` at end of input). -/
def tokenizeFrom (cs : List Char) (pos : ℕ) :
    List SpannedToken × Option ParseError :=
  tokenizeGo (cs.length + 1) cs pos

/-! ## Parser helpers (`src/parser/mod.rs`) -/

/-- Whitespace, for `str::trim` on the ASCII bracket contents. -/
def isWs (c : Char) : Bool :=
  c = ' ' ∨ c = '\t' ∨ c = '\n' ∨ c = '\r'

/-- Rust `str::trim` on a character list. -/
def trimChars (cs : List Char) : List Char :=
  ((cs.dropWhile isWs).reverse.dropWhile isWs).reverse

/-- Rust `str::eq_ignore_ascii_case`. -/
def ciEqChars : List Char → List Char → Bool
  | [], [] => true
  | a :: as', b :: bs => asciiLower a = asciiLower b && ciEqChars as' bs
  | _, _ => false

/-- Numeric value of a run of ASCII digits. -/
def digitsVal (cs : List Char) : ℕ :=
  cs.foldl (fun a c => a * 10 + (c.toNat - '0'.toNat)) 0

/-- Rust `str::parse::<u8>`: optional `+`, then ASCII digits, value at
most 255. -/
def parseU8? (cs : List Char) : Option ℕ :=
  let cs := match cs with
    | '+' :: r => r
    | r => r
  if cs ≠ [] ∧ cs.all Char.isDigit ∧ digitsVal cs ≤ 255 then
    some (digitsVal cs)
  else none

/-- Rust `str::parse::<u32>`: the fixed-denominator digits; value must
fit in `u32`. -/
def parseU32? (cs : List Char) : Option ℕ :=
  let cs := match cs with
    | '+' :: r => r
    | r => r
  if cs ≠ [] ∧ cs.all Char.isDigit ∧ digitsVal cs < 2 ^ 32 then
    some (digitsVal cs)
  else none

/-- Value of an ASCII hex digit. -/
def hexDigitVal? (c : Char) : Option ℕ :=
  if '0' ≤ c ∧ c ≤ '9' then some (c.toNat - '0'.toNat)
  else if 'a' ≤ c ∧ c ≤ 'f' then some (c.toNat - 'a'.toNat + 10)
  else if 'A' ≤ c ∧ c ≤ 'F' then some (c.toNat - 'A'.toNat + 10)
  else none

/-- Rust `u32::from_str_radix(s, 16)`: an optional leading `+`, then
nonempty hex digits fitting in `u32`. -/
def parseHexU32? (cs : List Char) : Option ℕ :=
  let ds := match cs with
    | '+' :: rest => rest
    | _ => cs
  if ds ≠ [] ∧ ds.all (fun c => (hexDigitVal? c).isSome) then
    let v := ds.foldl (fun a c => a * 16 + (hexDigitVal? c).getD 0) 0
    if v < 2 ^ 32 then some v else none
  else none

/-- Rust `str::parse::<f64>` on the simple decimal literals that occur
in conditions, modelled as exact decimal-to-rational conversion
(optional sign, digits, optional fraction, optional exponent).  The
`f64` result would be the nearest double; every claim below settles
conditions built directly as rationals, so this parser is exercised only
to *reject* non-numeric bracket contents such as `hh`. -/
def parseF64? (cs : List Char) : Option ℚ :=
  let (sgn, cs) : ℚ × List Char := match cs with
    | '+' :: r => (1, r)
    | '-' :: r => (-1, r)
    | r => (1, r)
  let intDigits := cs.takeWhile Char.isDigit
  let cs₁ := cs.dropWhile Char.isDigit
  let (fracDigits, cs₂) : List Char × List Char := match cs₁ with
    | '.' :: r => (r.takeWhile Char.isDigit, r.dropWhile Char.isDigit)
    | r => ([], r)
  if intDigits = [] ∧ fracDigits = [] then none
  else
    let mantissa : ℚ :=
      (digitsVal intDigits : ℚ) +
        (digitsVal fracDigits : ℚ) / 10 ^ fracDigits.length
    match cs₂ with
    | [] => some (sgn * mantissa)
    | e :: r =>
        if e = 'e' ∨ e = 'E' then
          let (esgn, r₁) : Bool × List Char := match r with
            | '+' :: r' => (true, r')
            | '-' :: r' => (false, r')
            | r' => (true, r')
          let expDigits := r₁.takeWhile Char.isDigit
          let r₂ := r₁.dropWhile Char.isDigit
          if expDigits = [] ∨ r₂ ≠ [] then none
          else
            let ex := digitsVal expDigits
            some (sgn * mantissa * (if esgn then (10 : ℚ) ^ ex else 1 / 10 ^ ex))
        else none

/-- Embeds `NamedColor::from_str` (src/ast.rs lines 19-35). -/
def namedColorFromStr (cs : List Char) : Option NamedColor :=
  let l := cs.map asciiLower
  if l = "black".data then some .black
  else if l = "blue".data then some .blue
  else if l = "cyan".data then some .cyan
  else if l = "green".data then some .green
  else if l = "magenta".data then some .magenta
  else if l = "red".data then some .red
  else if l = "white".data then some .white
  else if l = "yellow".data then some .yellow
  else none

/-- Embeds `try_parse_color` (src/parser/mod.rs lines 803-820). -/
def tryParseColor (cs : List Char) : Option Color :=
  match namedColorFromStr cs with
  | some named => some (.named named)
  | none =>
      let lower := cs.map asciiLower
      if lower.take 5 = "color".data ∧ 5 ≤ lower.length then
        match parseU8? (cs.drop 5) with
        | some idx => if 1 ≤ idx ∧ idx ≤ 56 then some (.indexed idx) else none
        | none => none
      else none

/-- Embeds `try_parse_condition` (src/parser/mod.rs lines 823-854); a
matched operator whose number fails to parse yields `none` without
trying shorter operators, exactly as the Rust `else if` chain does. -/
def tryParseCondition (cs : List Char) : Option Condition :=
  let cs := trimChars cs
  match cs with
  | '>' :: '=' :: r => (parseF64? (trimChars r)).map .greaterOrEqual
  | '<' :: '=' :: r => (parseF64? (trimChars r)).map .lessOrEqual
  | '<' :: '>' :: r => (parseF64? (trimChars r)).map .notEqual
  | '>' :: r => (parseF64? (trimChars r)).map .greaterThan
  | '<' :: r => (parseF64? (trimChars r)).map .lessThan
  | '=' :: r => (parseF64? (trimChars r)).map .equal
  | _ => none

/-- Embeds `try_parse_elapsed` (src/parser/mod.rs lines 857-865): both
the one- and the two-letter bracket forms map to the *unpadded* elapsed
kinds. -/
def tryParseElapsed (cs : List Char) : Option ElapsedPart :=
  let l := cs.map asciiLower
  if l = "h".data ∨ l = "hh".data then some .hours
  else if l = "m".data ∨ l = "mm".data then some .minutes
  else if l = "s".data ∨ l = "ss".data then some .seconds
  else none

/-- Embeds `try_parse_locale` (src/parser/mod.rs lines 868-901). -/
def tryParseLocale (cs : List Char) : Option LocaleCode :=
  match cs with
  | '$' :: rest =>
      match splitAtChar? '-' rest with
      | some (currencyPart, lcidPart) =>
          let currency :=
            if currencyPart = [] then none else some (String.mk currencyPart)
          some ⟨currency, parseHexU32? lcidPart⟩
      | none =>
          some ⟨if rest = [] then none else some (String.mk rest), none⟩
  | _ => none

/-- Embeds `parse_am_pm_style` (src/parser/mod.rs lines 779-800).  Note
that no branch returns a malformed style. -/
def parseAmPmStyle (s : String) : AmPmStyle :=
  if s = "AM/PM" then .upper
  else if s = "am/pm" then .lower
  else if s = "A/P" then .shortUpper
  else if s = "a/p" then .shortLower
  else
    let firstUpper : Bool :=
      match s.data with
      | c :: _ => 'A' ≤ c ∧ c ≤ 'Z'
      | [] => false
    if s.utf8ByteSize ≤ 3 then
      if firstUpper then .shortUpper else .shortLower
    else if firstUpper then .upper else .lower

/-- Embeds `Parser::get_literal_char` (src/parser/mod.rs lines 493-511). -/
def getLiteralChar : Token → Option Char
  | .literal ch => some ch
  | .zero => some '0'
  | .hash => some '#'
  | .question => some '?'
  | .decimalPoint => some '.'
  | .thousandsSep => some ','
  | .percent => some '%'
  | .atSign => some '@'
  | .asterisk => some '*'
  | .underscore => some '_'
  | .plus => some '+'
  | .minus => some '-'
  | .slash => some '/'
  | .escapedChar ch => some ch
  | _ => none

/-- The minute-vs-month decision for a run of `count` `m` letters
(src/parser/mod.rs lines 237-257): Minute kinds iff an hour token was
already seen in the current section. -/
def monthDatePart (seenHour : Bool) (count : ℕ) : DatePart :=
  if seenHour then
    if 2 ≤ count then .minute2 else .minute
  else
    match count with
    | 1 => .month
    | 2 => .month2
    | 3 => .monthAbbr
    | 4 => .monthFull
    | _ => .monthLetter

/-! ## Parser post-passes (`SectionBuilder`, src/parser/mod.rs) -/

/-- Fuel-driven scan of `find_slash_position`. -/
def fspGo (parts : List FormatPart) : ℕ → ℕ → Option ℕ
  | 0, _ => none
  | fuel + 1, start =>
      match parts.get? start with
      | some (.literal s) =>
          if s = "/" then some start else fspGo parts fuel (start + 1)
      | some (.escapedLiteral s) =>
          if s = "/" then some start else fspGo parts fuel (start + 1)
      | some _ => fspGo parts fuel (start + 1)
      | none => none

/-- Embeds `SectionBuilder::find_slash_position`
(src/parser/mod.rs lines 687-694). -/
def findSlashPosition (parts : List FormatPart) (start : ℕ) : Option ℕ :=
  fspGo parts (parts.length + 1) start

/-- Fuel-driven scan of `collect_digit_placeholders`. -/
def cdpGo (parts : List FormatPart) : ℕ → ℕ → List DigitPlaceholder
  | 0, _ => []
  | fuel + 1, start =>
      match parts.get? start with
      | some (.digit d) => d :: cdpGo parts fuel (start + 1)
      | _ => []

/-- Embeds `SectionBuilder::collect_digit_placeholders`
(src/parser/mod.rs lines 697-707). -/
def collectDigitPlaceholders (parts : List FormatPart) (start : ℕ) :
    List DigitPlaceholder :=
  cdpGo parts (parts.length + 1) start

/-- Backward scan of `collect_digit_placeholders_reverse`
(src/parser/mod.rs lines 710-723), accumulating pushes in source order. -/
def cdpRevGo (parts : List FormatPart) :
    ℕ → ℤ → List DigitPlaceholder → List DigitPlaceholder
  | 0, _, acc => acc
  | fuel + 1, i, acc =>
      if i < 0 then acc
      else
        match parts.get? i.toNat with
        | some (.digit d) => cdpRevGo parts fuel (i - 1) (acc ++ [d])
        | _ => acc

/-- Embeds `SectionBuilder::collect_digit_placeholders_reverse`
(src/parser/mod.rs lines 710-723). -/
def collectDigitPlaceholdersReverse (parts : List FormatPart) (endIdx : ℕ) :
    List DigitPlaceholder :=
  (cdpRevGo parts (endIdx + 1) (endIdx : ℤ) []).reverse

/-- Backward scan of `collect_integer_part`
(src/parser/mod.rs lines 726-775); returns the exit index, the digit
accumulator (in scan order) and the `found_space` flag. -/
def cipGo (parts : List FormatPart) :
    ℕ → ℤ → List DigitPlaceholder → Bool → ℤ × List DigitPlaceholder × Bool
  | 0, i, acc, fs => (i, acc, fs)
  | fuel + 1, i, acc, fs =>
      if i < 0 then (i, acc, fs)
      else
        match parts.get? i.toNat with
        | some (.digit d) => cipGo parts fuel (i - 1) (acc ++ [d]) fs
        | some (.literal s) =>
            if s = " " then
              if acc ≠ [] then (i, acc, true)
              else cipGo parts fuel (i - 1) acc true
            else if acc = [] then cipGo parts fuel (i - 1) acc fs
            else (i, acc, fs)
        | some (.escapedLiteral s) =>
            if s = " " then
              if acc ≠ [] then (i, acc, true)
              else cipGo parts fuel (i - 1) acc true
            else if acc = [] then cipGo parts fuel (i - 1) acc fs
            else (i, acc, fs)
        | some .thousandsSeparator => cipGo parts fuel (i - 1) acc fs
        | _ =>
            if acc ≠ [] then (i, acc, fs)
            else cipGo parts fuel (i - 1) acc fs

/-- Embeds `SectionBuilder::collect_integer_part`
(src/parser/mod.rs lines 726-775): scans backwards for the mixed
fraction's integer placeholders and truncates `new_parts` to drop them
when a separating space was found. -/
def collectIntegerPart (parts newParts : List FormatPart) (endIdx : ℕ) :
    List DigitPlaceholder × List FormatPart :=
  let (i, intDigits, foundSpace) := cipGo parts (endIdx + 1) (endIdx : ℤ) [] false
  if intDigits ≠ [] ∧ foundSpace then
    (intDigits.reverse, newParts.take (i + 1).toNat)
  else ([], newParts)

/-- The fixed-denominator collector inlined in `detect_fractions`
(src/parser/mod.rs lines 563-590): consecutive single-digit literals and
`0` placeholders after the slash. -/
def collectFixedDenomGo (parts : List FormatPart) :
    ℕ → ℕ → List Char → ℕ → List Char × ℕ
  | 0, _, numStr, count => (numStr, count)
  | fuel + 1, i, numStr, count =>
      match parts.get? i with
      | some (.literal s) =>
          match s.data with
          | [c] =>
              if c.isDigit then
                collectFixedDenomGo parts fuel (i + 1) (numStr ++ [c]) (count + 1)
              else (numStr, count)
          | _ => (numStr, count)
      | some (.escapedLiteral s) =>
          match s.data with
          | [c] =>
              if c.isDigit then
                collectFixedDenomGo parts fuel (i + 1) (numStr ++ [c]) (count + 1)
              else (numStr, count)
          | _ => (numStr, count)
      | some (.digit .zero) =>
          collectFixedDenomGo parts fuel (i + 1) (numStr ++ ['0']) (count + 1)
      | _ => (numStr, count)

/-- Fixed-denominator detection result: the parsed value (if the digit
string is nonempty and parses as `u32`) and the number of consumed
parts. -/
def collectFixedDenom (parts : List FormatPart) (denomStart : ℕ) :
    Option ℕ × ℕ :=
  let (numStr, count) :=
    collectFixedDenomGo parts (parts.length + 1) denomStart [] 0
  if numStr ≠ [] then (parseU32? numStr, count) else (none, 0)

/-- Main loop of `SectionBuilder::detect_fractions`
(src/parser/mod.rs lines 550-642).  The snapshot's fraction constructor
does not populate the whitespace-around-slash fields declared in
`src/ast.rs`; per the spec (§4.D post-passes) they record the whitespace
next to the slash, which is empty for every format considered here, so
they are set to `""`. -/
def detectFractionsGo (parts : List FormatPart) :
    ℕ → ℕ → List FormatPart → List FormatPart
  | 0, _, newParts => newParts
  | fuel + 1, i, newParts =>
      if hi : i < parts.length then
        let keep := detectFractionsGo parts fuel (i + 1)
          (newParts ++ [parts.get ⟨i, hi⟩])
        match findSlashPosition parts i with
        | some slashPos =>
            let denomStart := slashPos + 1
            let denomDigits := collectDigitPlaceholders parts denomStart
            let (fixedDenom, fixedDenomLen) :=
              if denomDigits = [] then collectFixedDenom parts denomStart
              else (none, 0)
            if denomDigits ≠ [] ∨ fixedDenom.isSome then
              let numEnd := slashPos
              if 0 < numEnd then
                let numDigits := collectDigitPlaceholdersReverse parts (numEnd - 1)
                if numDigits ≠ [] then
                  let numStart := numEnd - numDigits.length
                  let (intDigits, newParts') :=
                    if 0 < numStart then
                      collectIntegerPart parts newParts (numStart - 1)
                    else ([], newParts)
                  let denominator :=
                    match fixedDenom with
                    | some f => FractionDenom.fixed f
                    | none => FractionDenom.upToDigits denomDigits.length
                  let fractionPart :=
                    FormatPart.fraction intDigits numDigits denominator "" ""
                  let skip :=
                    if fixedDenom.isSome then fixedDenomLen
                    else denomDigits.length
                  detectFractionsGo parts fuel (denomStart + skip)
                    (newParts' ++ [fractionPart])
                else keep
              else keep
            else keep
        | none => keep
      else newParts

/-- Embeds `SectionBuilder::detect_fractions`. -/
def detectFractions (parts : List FormatPart) : List FormatPart :=
  detectFractionsGo parts (parts.length + 1) 0 []

/-- Main loop of `SectionBuilder::detect_subseconds`
(src/parser/mod.rs lines 647-684). -/
def detectSubsecondsGo (parts : List FormatPart) :
    ℕ → ℕ → List FormatPart → List FormatPart
  | 0, _, newParts => newParts
  | fuel + 1, i, newParts =>
      if hi : i < parts.length then
        let keep := detectSubsecondsGo parts fuel (i + 1)
          (newParts ++ [parts.get ⟨i, hi⟩])
        if parts.get ⟨i, hi⟩ = .decimalPoint then
          let zeros :=
            (parts.drop (i + 1)).takeWhile (fun p => p = .digit .zero)
          let zeroCount := zeros.length
          if 0 < zeroCount ∧ newParts.any (·.isDatePart) then
            detectSubsecondsGo parts fuel (i + 1 + zeroCount)
              (newParts ++ [.literal ".", .datePart (.subSecond zeroCount)])
          else keep
        else keep
      else newParts

/-- Embeds `SectionBuilder::detect_subseconds`. -/
def detectSubseconds (parts : List FormatPart) : List FormatPart :=
  detectSubsecondsGo parts (parts.length + 1) 0 []

/-- A section builder (`SectionBuilder`, src/parser/mod.rs). -/
structure SBuilder where
  condition : Option Condition
  color : Option Color
  parts : List FormatPart
  deriving DecidableEq, Repr

/-- Appends a part (`SectionBuilder::add_part`). -/
def SBuilder.add (b : SBuilder) (p : FormatPart) : SBuilder :=
  { b with parts := b.parts ++ [p] }

/-- Embeds `SectionBuilder::build` (src/parser/mod.rs lines 534-546):
runs the fraction and subsecond post-passes. -/
def SBuilder.build (b : SBuilder) : Section :=
  ⟨b.condition, b.color, detectSubseconds (detectFractions b.parts)⟩

/-! ## Parser state machine (`Parser`, src/parser/mod.rs)

The Rust parser pulls tokens lazily; since it consumes every token in
order until `Eof` or the first lexer error, running it over the eagerly
produced token list is equivalent.  The state holds the current token,
the remaining tokens, and the per-section `seen_hour` flag.  The loops
carry fuel that strictly exceeds the number of possible token pulls
(each iteration consumes at least one token of the finite list), so the
fuel-exhaustion branches — which behave like reaching `Eof` — are dead;
every theorem below either evaluates the parser on a concrete format
string or stops at the pre-checks and the lexer. -/

/-- Parser state: current token, remaining tokens, `seen_hour`. -/
structure PState where
  current : SpannedToken
  rest : List SpannedToken
  seenHour : Bool
  deriving DecidableEq, Repr

/-- Embeds `Parser::advance`; past the end of the token list it keeps
returning `Eof`, as the Rust lexer does. -/
def PState.advance (s : PState) : PState :=
  match s.rest with
  | t :: r => { s with current := t, rest := r }
  | [] => { s with current := ⟨.eof, s.current.stop, s.current.stop⟩, rest := [] }

/-- Embeds `Parser::count_consecutive` (src/parser/mod.rs lines 478-485)
for the payload-free date tokens: counts and consumes the run of tokens
equal to `t`. -/
def countRun (t : Token) : ℕ → PState → ℕ × PState
  | 0, st => (0, st)
  | fuel + 1, st =>
      if st.current.token = t then
        let (n, st') := countRun t fuel st.advance
        (n + 1, st')
      else (0, st)

/-- Content-collection loop of `Parser::parse_bracket_content`
(src/parser/mod.rs lines 364-444): gathers the bracket's characters
until the closing bracket. -/
def pbcGo (bracketStart : ℕ) :
    ℕ → PState → List Char → Except ParseError (List Char × PState)
  | 0, st, acc => .ok (acc, st)
  | fuel + 1, st, acc =>
      match st.current.token with
      | .closeBracket => .ok (acc, st.advance)
      | .eof => .error (.unterminatedBracket bracketStart)
      | .literal ch => pbcGo bracketStart fuel st.advance (acc ++ [ch])
      | .zero => pbcGo bracketStart fuel st.advance (acc ++ ['0'])
      | .hash => pbcGo bracketStart fuel st.advance (acc ++ ['#'])
      | .question => pbcGo bracketStart fuel st.advance (acc ++ ['?'])
      | .decimalPoint => pbcGo bracketStart fuel st.advance (acc ++ ['.'])
      | .thousandsSep => pbcGo bracketStart fuel st.advance (acc ++ [','])
      | .percent => pbcGo bracketStart fuel st.advance (acc ++ ['%'])
      | .atSign => pbcGo bracketStart fuel st.advance (acc ++ ['@'])
      | .asterisk => pbcGo bracketStart fuel st.advance (acc ++ ['*'])
      | .underscore => pbcGo bracketStart fuel st.advance (acc ++ ['_'])
      | .plus => pbcGo bracketStart fuel st.advance (acc ++ ['+'])
      | .minus => pbcGo bracketStart fuel st.advance (acc ++ ['-'])
      | .slash => pbcGo bracketStart fuel st.advance (acc ++ ['/'])
      | .exponentUpper => pbcGo bracketStart fuel st.advance (acc ++ ['E'])
      | .exponentLower => pbcGo bracketStart fuel st.advance (acc ++ ['e'])
      | _ => pbcGo bracketStart fuel st.advance acc

/-- Classification part of `Parser::parse_bracket_content`
(src/parser/mod.rs lines 446-474): color, then condition, then elapsed,
then locale; otherwise the bracket is ignored. -/
def classifyBracket (b : SBuilder) (content : List Char) : SBuilder :=
  let content := trimChars content
  match tryParseColor content with
  | some color => { b with color := some color }
  | none =>
      match tryParseCondition content with
      | some condition => { b with condition := some condition }
      | none =>
          match tryParseElapsed content with
          | some elapsed => b.add (.elapsed elapsed)
          | none =>
              match tryParseLocale content with
              | some locale => b.add (.locale locale)
              | none => b

/-- Main loop of `Parser::parse_section` (src/parser/mod.rs
lines 111-356); one iteration per matched token. -/
def psGo : ℕ → PState → SBuilder → Except ParseError (SBuilder × PState)
  | 0, st, b => .ok (b, st)
  | fuel + 1, st, b =>
      match st.current.token with
      | .eof => .ok (b, st)
      | .sectionSep => .ok (b, st)
      | .general =>
          let st := st.advance
          if st.current.token = .eof ∨ st.current.token = .sectionSep then
            .ok (b, st)
          else psGo fuel st (b.add .generalNumber)
      | .openBracket =>
          let bracketStart := st.current.start
          let st := st.advance
          match pbcGo bracketStart (fuel + 1) st [] with
          | .error e => .error e
          | .ok (content, st') => psGo fuel st' (classifyBracket b content)
      | .zero => psGo fuel st.advance (b.add (.digit .zero))
      | .hash => psGo fuel st.advance (b.add (.digit .hash))
      | .question => psGo fuel st.advance (b.add (.digit .question))
      | .decimalPoint => psGo fuel st.advance (b.add .decimalPoint)
      | .thousandsSep => psGo fuel st.advance (b.add .thousandsSeparator)
      | .percent => psGo fuel st.advance (b.add .percent)
      | .atSign => psGo fuel st.advance (b.add .textPlaceholder)
      | .asterisk =>
          let st := st.advance
          match getLiteralChar st.current.token with
          | some ch => psGo fuel st.advance (b.add (.fill ch))
          | none => psGo fuel st b
      | .underscore =>
          let st := st.advance
          match getLiteralChar st.current.token with
          | some ch => psGo fuel st.advance (b.add (.skip ch))
          | none => psGo fuel st b
      | .exponentUpper =>
          let st := st.advance
          if st.current.token = .plus ∨ st.current.token = .minus then
            let showPlus := st.current.token = .plus
            psGo fuel st.advance (b.add (.scientific true showPlus))
          else psGo fuel st (b.add (.literal "E"))
      | .exponentLower =>
          let st := st.advance
          if st.current.token = .plus ∨ st.current.token = .minus then
            let showPlus := st.current.token = .plus
            psGo fuel st.advance (b.add (.scientific false showPlus))
          else psGo fuel st (b.add (.literal "e"))
      | .plus => psGo fuel st.advance (b.add (.literal "+"))
      | .minus => psGo fuel st.advance (b.add (.literal "-"))
      | .slash => psGo fuel st.advance (b.add (.literal "/"))
      | .year =>
          let (count, st') := countRun .year (fuel + 1) st
          let part := if 4 ≤ count then DatePart.year4 else DatePart.year2
          psGo fuel st' (b.add (.datePart part))
      | .month =>
          let (count, st') := countRun .month (fuel + 1) st
          psGo fuel st' (b.add (.datePart (monthDatePart st.seenHour count)))
      | .day =>
          let (count, st') := countRun .day (fuel + 1) st
          let part :=
            match count with
            | 1 => DatePart.day
            | 2 => DatePart.day2
            | 3 => DatePart.dayAbbr
            | _ => DatePart.dayFull
          psGo fuel st' (b.add (.datePart part))
      | .hour =>
          let st := { st with seenHour := true }
          let (count, st') := countRun .hour (fuel + 1) st
          let part := if 2 ≤ count then DatePart.hour2 else DatePart.hour
          let b := b.add (.datePart part)
          if st'.current.token = .decimalPoint then
            let st'' := st'.advance
            let (fracPlaces, st₃) := countRun .zero (fuel + 1) st''
            if 0 < fracPlaces then
              psGo fuel st₃
                ((b.add (.literal ".")).add (.datePart (.subSecond fracPlaces)))
            else psGo fuel st₃ b
          else psGo fuel st' b
      | .second =>
          let (count, st') := countRun .second (fuel + 1) st
          let part := if 2 ≤ count then DatePart.second2 else DatePart.second
          let b := b.add (.datePart part)
          if st'.current.token = .decimalPoint then
            let st'' := st'.advance
            let (subsecPlaces, st₃) := countRun .zero (fuel + 1) st''
            if 0 < subsecPlaces then
              psGo fuel st₃
                ((b.add (.literal ".")).add (.datePart (.subSecond subsecPlaces)))
            else psGo fuel st₃ b
          else psGo fuel st' b
      | .amPm s => psGo fuel st.advance (b.add (.amPm (parseAmPmStyle s)))
      | .literal ch => psGo fuel st.advance (b.add (.literal (String.mk [ch])))
      | .escapedChar ch =>
          psGo fuel st.advance (b.add (.escapedLiteral (String.mk [ch])))
      | .quotedString s => psGo fuel st.advance (b.add (.literal s))
      | .closeBracket => psGo fuel st.advance (b.add (.literal "]"))
      | .buddhistYear => psGo fuel st.advance b
      | .buddhistYearUpper => psGo fuel st.advance b

/-- Embeds `Parser::parse_section`: fresh builder, `seen_hour` reset to
`false` at the start of every section (src/parser/mod.rs line 113). -/
def parseSection (fuel : ℕ) (st : PState) :
    Except ParseError (Section × PState) :=
  match psGo fuel { st with seenHour := false } ⟨none, none, []⟩ with
  | .error e => .error e
  | .ok (b, st') => .ok (b.build, st')

/-- Embeds the section loop of `Parser::parse`
(src/parser/mod.rs lines 87-108). -/
def parseLoopGo : ℕ → PState → List Section →
    Except ParseError (List Section)
  | 0, _, acc => .ok acc
  | fuel + 1, st, acc =>
      match parseSection (fuel + 1) st with
      | .error e => .error e
      | .ok (sec, st') =>
          let acc := acc ++ [sec]
          match st'.current.token with
          | .eof => .ok acc
          | .sectionSep => parseLoopGo fuel st'.advance acc
          | _ => .ok acc

/-- First index of a character in a string (`str::find` on a `char`
pattern); byte and character indices agree on the ASCII inputs of the
claims. -/
def findCharIdx (cs : List Char) (t : Char) : Option ℕ :=
  (splitAtChar? t cs).map (fun p => p.1.length)

/-- The `General`-format pre-check of `parse`
(src/parser/mod.rs lines 23-38): `General` alone, or `[…]General`
where the text after the first `]` trims (case-insensitively) to
`General`.  Returns the parsed color when the pre-check fires.  (For a
`]` at byte 0 the Rust slice `&format_code[1..0]` would panic; the
model yields the empty content, a case no claim exercises.) -/
def generalCheck (cs : List Char) : Option (Option Color) :=
  if ciEqChars cs "General".data then some none
  else
    match findCharIdx cs ']' with
    | some bracketEnd =>
        let afterBracket := cs.drop (bracketEnd + 1)
        if ciEqChars (trimChars afterBracket) "General".data then
          let bracketContent := (cs.drop 1).take (bracketEnd - 1)
          some (tryParseColor bracketContent)
        else none
    | none => none

/-- Embeds `parse` (src/parser/mod.rs lines 15-52) together with
`Parser::new` (lines 65-78): the empty-format check, the `General`
pre-check, then the token-driven parse.  `Parser::new` swallows an
error raised for the very first token (`unwrap_or` with `Eof`), in
which case the parse loop immediately sees `Eof` and yields a single
empty section. -/
def parse (formatCode : String) : Except ParseError NumberFormat :=
  if formatCode = "" then .error .emptyFormat
  else
    match generalCheck formatCode.data with
    | some color => .ok (NumberFormat.fromSections [⟨none, color, []⟩])
    | none =>
        match tokenizeFrom formatCode.data 0 with
        | (toks, some e) =>
            if toks = [] then
              .ok (NumberFormat.fromSections [⟨none, none, []⟩])
            else .error e
        | (toks, none) =>
            match toks with
            | [] => .ok (NumberFormat.fromSections [⟨none, none, []⟩])
            | t :: rest =>
                match parseLoopGo (toks.length + 2) ⟨t, rest, false⟩ [] with
                | .error e => .error e
                | .ok sections => .ok (NumberFormat.fromSections sections)

/-! ## Number formatting (`src/formatter/number.rs`) -/

/-- Decimal digits of a natural number, via `toString`. -/
def natDigits (n : ℕ) : List Char := (toString n).data

/-- Rust `format!("{:0width$}", x)` for a signed integer: zero padding
to `width`, the sign counting toward the width. -/
def padZeroSigned (width : ℕ) (x : ℤ) : String :=
  let digits := natDigits x.natAbs
  let signLen : ℕ := if x < 0 then 1 else 0
  let pad := width - (digits.length + signLen)
  String.mk ((if x < 0 then ['-'] else []) ++
    List.replicate pad '0' ++ digits)

/-- Rounding half to even on rationals, the rounding used by Rust's
fixed-precision float formatting. -/
def qRoundHalfEven (x : ℚ) : ℤ :=
  let fl := qfloor x
  let fr := x - (fl : ℚ)
  if fr < 1/2 then fl
  else if 1/2 < fr then fl + 1
  else if fl % 2 = 0 then fl else fl + 1

/-- Rust `format!("{:.prec$}", v)` on the rational model of the float:
fixed-precision decimal rendering with round-half-to-even. -/
def qFormatFixed (v : ℚ) (prec : ℕ) : String :=
  let sgn := if v < 0 then "-" else ""
  let n := qRoundHalfEven (|v| * 10 ^ prec)
  let digits := natDigits n.toNat
  if prec = 0 then sgn ++ String.mk digits
  else
    let digits :=
      if digits.length ≤ prec then
        List.replicate (prec + 1 - digits.length) '0' ++ digits
      else digits
    let intPart := digits.take (digits.length - prec)
    let fracPart := digits.drop (digits.length - prec)
    sgn ++ String.mk intPart ++ "." ++ String.mk fracPart

/-- Format analysis of a section's numeric structure
(`src/formatter/number.rs`, struct `FormatAnalysis`). -/
structure FormatAnalysis where
  integerPlaceholders : List DigitPlaceholder
  decimalPlaceholders : List DigitPlaceholder
  hasThousandsSeparator : Bool
  percentCount : ℕ
  thousandsScale : ℕ
  inlineLiterals : List (ℕ × String)
  prefixParts : List FormatPart
  suffixParts : List FormatPart
  deriving DecidableEq, Repr

/-- Scan state of `analyze_format`. -/
structure AnalyzeSt where
  integerPlaceholders : List DigitPlaceholder
  decimalPlaceholders : List DigitPlaceholder
  hasThousandsSeparator : Bool
  percentCount : ℕ
  inlineLiterals : List (ℕ × String)
  prefixParts : List FormatPart
  suffixParts : List FormatPart
  seenDigit : Bool
  afterDecimal : Bool
  afterDigits : Bool

/-- One step of the `analyze_format` scan
(src/formatter/number.rs lines 59-137). -/
def analyzeStep (st : AnalyzeSt) (part : FormatPart) : AnalyzeSt :=
  match part with
  | .digit p =>
      let st := { st with seenDigit := true, afterDigits := false }
      if st.afterDecimal then
        { st with decimalPlaceholders := st.decimalPlaceholders ++ [p] }
      else
        { st with integerPlaceholders := st.integerPlaceholders ++ [p] }
  | .decimalPoint =>
      { st with afterDecimal := true, seenDigit := true, afterDigits := true }
  | .thousandsSeparator => { st with hasThousandsSeparator := true }
  | .percent =>
      let st := { st with percentCount := st.percentCount + 1 }
      if st.seenDigit then
        { st with afterDigits := true, suffixParts := st.suffixParts ++ [part] }
      else { st with prefixParts := st.prefixParts ++ [part] }
  | .literal s =>
      if ¬st.seenDigit then { st with prefixParts := st.prefixParts ++ [part] }
      else if st.afterDigits then
        { st with suffixParts := st.suffixParts ++ [part] }
      else
        { st with inlineLiterals :=
            st.inlineLiterals ++ [(st.integerPlaceholders.length, s)] }
  | .escapedLiteral s =>
      if ¬st.seenDigit then { st with prefixParts := st.prefixParts ++ [part] }
      else if st.afterDigits then
        { st with suffixParts := st.suffixParts ++ [part] }
      else
        { st with inlineLiterals :=
            st.inlineLiterals ++ [(st.integerPlaceholders.length, s)] }
  | .locale code =>
      match code.currency with
      | some s =>
          if ¬st.seenDigit then
            { st with prefixParts := st.prefixParts ++ [part] }
          else if st.afterDigits then
            { st with suffixParts := st.suffixParts ++ [part] }
          else
            { st with inlineLiterals :=
                st.inlineLiterals ++ [(st.integerPlaceholders.length, s)] }
      | none =>
          if ¬st.seenDigit then
            { st with prefixParts := st.prefixParts ++ [part] }
          else if st.afterDigits then
            { st with suffixParts := st.suffixParts ++ [part] }
          else st
  | .skip _ =>
      if ¬st.seenDigit then
        { st with prefixParts := st.prefixParts ++ [.literal " "] }
      else { st with suffixParts := st.suffixParts ++ [.literal " "] }
  | _ =>
      if ¬st.seenDigit then { st with prefixParts := st.prefixParts ++ [part] }
      else if st.afterDigits then
        { st with suffixParts := st.suffixParts ++ [part] }
      else st

/-- Trailing-comma count: scan from the end until a digit or decimal
point (src/formatter/number.rs lines 144-161). -/
def trailingCommas : List FormatPart → ℕ
  | [] => 0
  | p :: rest =>
      match p with
      | .thousandsSeparator => trailingCommas rest + 1
      | .digit _ => 0
      | .decimalPoint => 0
      | _ => trailingCommas rest

/-- Embeds `analyze_format` (src/formatter/number.rs lines 46-190). -/
def analyzeFormat (s : Section) : FormatAnalysis :=
  let st : AnalyzeSt := ⟨[], [], false, 0, [], [], [], false, false, false⟩
  let st := s.parts.foldl analyzeStep st
  let integerPlaceholders :=
    if st.integerPlaceholders = [] ∧ ¬st.afterDecimal then
      [DigitPlaceholder.hash]
    else st.integerPlaceholders
  let thousandsScale :=
    (s.parts.reverse.foldl
      (fun acc p =>
        match acc, p with
        | (n, true), .thousandsSeparator => (n + 1, true)
        | (n, true), .digit _ => (n, false)
        | (n, true), .decimalPoint => (n, false)
        | (n, b), _ => (n, b))
      ((0 : ℕ), true)).1
  let total := integerPlaceholders.length
  let inlineLiterals :=
    st.inlineLiterals.map (fun q => (total - q.1, q.2))
  ⟨integerPlaceholders, st.decimalPlaceholders, st.hasThousandsSeparator,
    st.percentCount, thousandsScale, inlineLiterals, st.prefixParts,
    st.suffixParts⟩

/-- Inline literals at one from-right position, concatenated in source
order (the Rust loop prepends them in reverse, which amounts to the
same). -/
def inlineAt (inlineLiterals : List (ℕ × String)) (pos : ℕ) : String :=
  String.join ((inlineLiterals.filter (fun q => q.1 = pos)).map (·.2))

/-- The right-to-left layout loop of `format_integer`
(src/formatter/number.rs lines 402-446), expressed by recursion on the
position from the right; each position contributes
`digit ++ inline-literals ++ thousands-separator` in front of the
accumulated tail. -/
def formatIntegerGo (valueDigits : List Char)
    (placeholders : List DigitPlaceholder) (useThousands : Bool)
    (interspersed : Bool) (inlineLiterals : List (ℕ × String))
    (sep : Char) : ℕ → String
  | 0 => ""
  | posFromRight + 1 =>
      let tail := formatIntegerGo valueDigits placeholders useThousands
        interspersed inlineLiterals sep posFromRight
      let sepStr :=
        if useThousands ∧ 0 < posFromRight ∧ posFromRight % 3 = 0 then
          String.mk [sep]
        else ""
      let litStr := inlineAt inlineLiterals posFromRight
      let digitIndex : ℤ := (valueDigits.length : ℤ) - 1 - posFromRight
      let digitStr :=
        if 0 ≤ digitIndex then
          String.mk [valueDigits.getD digitIndex.toNat '0']
        else if interspersed then "0"
        else
          let phIndex : ℤ := (placeholders.length : ℤ) - 1 - posFromRight
          if 0 ≤ phIndex then
            match (placeholders.getD phIndex.toNat .hash).emptyChar with
            | some c => String.mk [c]
            | none => ""
          else ""
      digitStr ++ litStr ++ sepStr ++ tail

/-- Embeds `format_integer` (src/formatter/number.rs lines 351-469). -/
def formatInteger (value : ℕ) (placeholders : List DigitPlaceholder)
    (useThousands : Bool) (inlineLiterals : List (ℕ × String))
    (opts : FormatOptions) : String :=
  let valueDigits := natDigits value
  let minDigits := (placeholders.filter (·.isRequired)).length
  if value = 0 ∧ minDigits = 0 then
    -- Inline literals sorted by position descending (stable), i.e. the
    -- leftmost positions first.
    let sorted :=
      (inlineLiterals.mergeSort (fun a b => b.1 ≤ a.1)).map (·.2)
    String.join sorted
  else
    let transitions :=
      (List.range placeholders.length).foldl
        (fun acc i =>
          if 1 ≤ i ∧ placeholders.getD i .hash ≠ placeholders.getD (i - 1) .hash
          then acc + 1 else acc) 0
    let interspersed := 1 < transitions
    let outputLen :=
      if interspersed then valueDigits.length + minDigits
      else max valueDigits.length minDigits
    let result := formatIntegerGo valueDigits placeholders useThousands
      interspersed inlineLiterals opts.locale.thousandsSeparator outputLen
    let result :=
      if result = "" ∧ placeholders.any (·.isRequired) then "0" else result
    -- Inline literals beyond the formatted width, each prepended in
    -- iteration order (so the last qualifying literal ends up leftmost).
    inlineLiterals.foldl
      (fun acc q => if outputLen ≤ q.1 then q.2 ++ acc else acc) result

/-- The trailing-zeros start index of `format_decimal`
(src/formatter/number.rs lines 488-502): scanned from index `m - 1`
downward; `fuel` is the current index plus one. -/
def tzsGo (chars : List Char) (placeholders : List DigitPlaceholder) :
    ℕ → ℕ → ℕ
  | 0, tzs => tzs
  | i + 1, tzs =>
      if chars.getD i 'x' = '0' then
        if ¬(placeholders.getD i .hash).isRequired then
          tzsGo chars placeholders i i
        else tzs
      else tzs

/-- Embeds `format_decimal` (src/formatter/number.rs lines 472-525). -/
def formatDecimal (value : ℚ) (placeholders : List DigitPlaceholder)
    (_opts : FormatOptions) : String :=
  if placeholders = [] then ""
  else
    let effectivePlaces := min placeholders.length 15
    let decimalInt := (qround (value * 10 ^ effectivePlaces)).toNat
    let raw := natDigits decimalInt
    let decimalChars :=
      if raw.length ≤ effectivePlaces then
        List.replicate (effectivePlaces - raw.length) '0' ++ raw
      else raw
    let tzs := tzsGo decimalChars placeholders
      (min placeholders.length effectivePlaces) placeholders.length
    let render := fun (i : ℕ) (ph : DigitPlaceholder) =>
      let ch := if i < effectivePlaces then decimalChars.getD i '0' else '0'
      if tzs ≤ i ∧ ch = '0' ∧ ¬ph.isRequired then
        if ph = .question then " " else ""
      else String.mk [ch]
    String.join (((List.range placeholders.length).zip placeholders).map
      (fun q => render q.1 q.2))

/-- Embeds `build_result` (src/formatter/number.rs lines 528-567). -/
def buildResult (analysis : FormatAnalysis) (formattedNumber : String)
    (_opts : FormatOptions) : String :=
  let partStr := fun (p : FormatPart) =>
    match p with
    | .literal s => s
    | .escapedLiteral s => s
    | .locale code => code.currency.getD ""
    | .percent => "%"
    | _ => ""
  String.join (analysis.prefixParts.map partStr) ++ formattedNumber ++
    String.join (analysis.suffixParts.map partStr)

/-- Embeds `format_with_placeholders`
(src/formatter/number.rs lines 322-348). -/
def formatWithPlaceholders (value : ℚ) (analysis : FormatAnalysis)
    (opts : FormatOptions) : String :=
  let decimalPlaces := analysis.decimalPlaceholders.length
  let integerPart := (qtrunc value).toNat
  let decimalPart := qfract value
  let integerStr := formatInteger integerPart analysis.integerPlaceholders
    analysis.hasThousandsSeparator analysis.inlineLiterals opts
  if 0 < decimalPlaces then
    let decimalStr := formatDecimal decimalPart analysis.decimalPlaceholders opts
    integerStr ++ String.mk [opts.locale.decimalSeparator] ++ decimalStr
  else integerStr

/-! ## Fallback "General" formatting (`src/formatter/mod.rs`) -/

/-- Floor of the base-10 logarithm of a positive rational, the exact
value of `f64::log10(..).floor()` away from representation edge
cases. -/
def qlog10Floor (x : ℚ) : ℤ :=
  if 1 ≤ x then ((natDigits (qfloor x).toNat).length : ℤ) - 1
  else
    -- smallest k ≥ 1 with x * 10^k ≥ 1; bounded by the denominator's
    -- digit count.
    let bound := (natDigits x.den).length + 1
    let k := (List.range bound).findIdx (fun i => 1 ≤ x * 10 ^ (i + 1)) + 1
    Neg.neg (k : ℤ)

/-- Trims trailing `'0'` characters, then trailing `'.'` characters
(Rust `trim_end_matches`). -/
def trimEndZerosDot (s : String) : String :=
  String.mk
    (((s.data.reverse.dropWhile (· = '0')).dropWhile (· = '.')).reverse)

/-- Trims trailing `'0'` characters only. -/
def trimEndZeros (s : String) : String :=
  String.mk ((s.data.reverse.dropWhile (· = '0')).reverse)

/-- Embeds `fallback_format` (src/formatter/mod.rs lines 203-309),
Excel's General formatting, over the rational model: decimal rendering
with at most ~11 significant characters, or scientific notation for
very large/small magnitudes.  No claim below evaluates this function;
it is the faithful completion of `try_format`'s empty-section branch. -/
def fallbackFormat (value : ℚ) : String :=
  if value = 0 then "0"
  else
    let absValue := |value|
    let useScientific :=
      if (10 : ℚ) ^ 11 ≤ absValue then true
      else if absValue < 1 / 10 ^ 4 then
        let testStr := qFormatFixed absValue 15
        11 < (trimEndZerosDot testStr).utf8ByteSize
      else false
    if useScientific then
      let e₀ := qlog10Floor absValue
      let m₀ := absValue / (10 : ℚ) ^ e₀
      -- `format!("{:.5E}", v)`: five mantissa decimals; renormalize if
      -- rounding pushes the mantissa to 10.
      let (m, e) :=
        if (10 : ℚ) ^ 5 * 10 ≤ (qRoundHalfEven (m₀ * 10 ^ 5) : ℚ) then
          (m₀ / 10, e₀ + 1)
        else (m₀, e₀)
      let mantissaStr := qFormatFixed m 5
      let trimmed := trimEndZeros mantissaStr
      let finalMantissa :=
        if trimmed.data.getLast? = some '.' then
          String.mk (trimmed.data.dropLast)
        else trimmed
      let sgn := if value < 0 then "-" else ""
      sgn ++ finalMantissa ++ "E" ++
        (if 0 ≤ e then "+" else "-") ++ padZeroSigned 2 |e|
    else
      let formatted :=
        if 1 ≤ absValue then
          let integerDigits := (qlog10Floor absValue).toNat + 1
          let decimalPlaces :=
            if 10 ≤ integerDigits then 0 else min (10 - integerDigits) 10
          qFormatFixed value decimalPlaces
        else
          let testStr := qFormatFixed value 9
          let numericLen :=
            if value < 0 then testStr.utf8ByteSize - 1 else testStr.utf8ByteSize
          if 11 < numericLen then
            qFormatFixed value (9 - (numericLen - 11))
          else testStr
      if formatted.data.contains '.' then trimEndZerosDot formatted
      else formatted

/-- Embeds `format_scientific` (src/formatter/number.rs lines 570-671). -/
def formatScientific (value : ℚ) (s : Section) (upper showPlus : Bool)
    (_opts : FormatOptions) : Except FormatError String :=
  let counts :=
    s.parts.foldl
      (fun (st : ℕ × ℕ × ℕ × Bool × Bool) p =>
        let (mi, md, ed, seenDec, afterExp) := st
        match p with
        | .digit _ =>
            if afterExp then (mi, md, ed + 1, seenDec, afterExp)
            else if seenDec then (mi, md + 1, ed, seenDec, afterExp)
            else (mi + 1, md, ed, seenDec, afterExp)
        | .decimalPoint =>
            if afterExp then st else (mi, md, ed, true, afterExp)
        | .scientific _ _ => (mi, md, ed, seenDec, true)
        | _ => st)
      (0, 0, 0, false, false)
  let (mantissaIntegerPlaces, mantissaDecimalPlaces, exponentDigits, _, _) :=
    counts
  let absValue := |value|
  let expChar := if upper then "E" else "e"
  if absValue = 0 then
    let decimalPart :=
      if 0 < mantissaDecimalPlaces then
        "." ++ String.mk (List.replicate mantissaDecimalPlaces '0')
      else ""
    .ok ("0" ++ decimalPart ++ expChar ++ (if showPlus then "+" else "") ++ "00")
  else
    let baseExponent := qlog10Floor absValue
    let exponent :=
      if 1 < mantissaIntegerPlaces then
        let groupSize : ℤ := max (mantissaIntegerPlaces : ℤ) 1
        Int.tdiv baseExponent groupSize * groupSize
      else baseExponent
    let mantissa := absValue / (10 : ℚ) ^ exponent
    let mantissaStr :=
      if 0 < mantissaDecimalPlaces then qFormatFixed mantissa mantissaDecimalPlaces
      else qFormatFixed mantissa 0
    let expSign :=
      if 0 ≤ exponent then (if showPlus then "+" else "") else "-"
    let expAbs := |exponent|
    let expStr :=
      if 2 ≤ exponentDigits then padZeroSigned 2 expAbs
      else toString expAbs
    let formatted := mantissaStr ++ expChar ++ expSign ++ expStr
    if value < 0 then .ok ("-" ++ formatted) else .ok formatted

/-! ## Fraction formatting (`src/formatter/fraction.rs`) -/

/-- Modelled from the spec: `format_simple_with_placeholders` — imported
by `src/formatter/fraction.rs` from `crate::formatter::number`, whose
snapshot does not contain its body.  Per spec §4.F.5 it is the basic
integer placeholder layout (no thousands separators, no inline
literals), which is `format_integer` with those features disabled. -/
def formatSimpleWithPlaceholders (value : ℕ)
    (placeholders : List DigitPlaceholder) : String :=
  formatInteger value placeholders false [] defaultOpts

/-- Embeds `format_fraction_part` (src/formatter/fraction.rs lines 10-12). -/
def formatFractionPart (value : ℕ) (placeholders : List DigitPlaceholder) :
    String :=
  formatSimpleWithPlaceholders value placeholders

/-- The continued-fraction loop of `find_best_fraction`
(src/formatter/fraction.rs lines 216-241): convergents `h`, `k`, at
most 20 iterations, stopping when the residual is below `1e-10` or the
next denominator would exceed `maxDenom`. -/
def cfLoop (maxDenom : ℕ) :
    ℕ → ℚ → ℚ → ℤ × ℤ → ℤ × ℤ → ℤ × ℤ
  | 0, _, _, h, k => (h.1, k.1)
  | fuel + 1, x, a, h, k =>
      if |x - a| < 1 / 10 ^ 10 then (h.1, k.1)
      else
        let x' := 1 / (x - a)
        let a' : ℤ := qfloor x'
        let hNext := a' * h.1 + h.2
        let kNext := a' * k.1 + k.2
        if (maxDenom : ℤ) < kNext then (h.1, k.1)
        else cfLoop maxDenom fuel x' (a' : ℚ) (hNext, h.1) (kNext, k.1)

/-- Embeds `find_best_fraction` (src/formatter/fraction.rs
lines 200-252).  The result models the `(u32, u32)` pair; the
float-to-`u32` casts saturate below at 0, modelled by `Int.toNat`. -/
def findBestFraction (value : ℚ) (maxDenom : ℕ) : ℕ × ℕ :=
  if value = 0 ∨ maxDenom = 0 then (0, 1)
  else if |value| < 1 / 10 ^ 10 then (0, 1)
  else
    let a : ℤ := qfloor value
    let (h₀, k₀) := cfLoop maxDenom 20 value (a : ℚ) (a, 1) (1, 0)
    if (maxDenom : ℤ) < k₀ then
      let denom := min maxDenom 10
      let num := (qround (value * denom)).toNat
      (num, denom)
    else ((max h₀ 0).toNat, (max k₀ 1).toNat)

/-- Embeds `format_fraction` (src/formatter/fraction.rs lines 15-196). -/
def formatFraction (value : ℚ) (s : Section) (_opts : FormatOptions) :
    Except FormatError String :=
  let fractionPart := s.parts.findSome? (fun p =>
    match p with
    | .fraction i n d sbs sas => some (i, n, d, sbs, sas)
    | _ => none)
  match fractionPart with
  | none => .error (.typeMismatch "fraction format" "no fraction part found")
  | some (integerDigits, numeratorDigits, denominator, sbs, sas) =>
      let absValue := |value|
      let integerPart₀ : ℤ := qtrunc absValue
      let fracPart := qfract absValue
      let isMixed := integerDigits ≠ []
      let paddingWidth : ℕ :=
        match denominator with
        | .upToDigits denomDigits =>
            if isMixed then min (max numeratorDigits.length denomDigits) 7
            else min denomDigits 7
        | .fixed _ => 0
      let pair : ℕ × ℕ :=
        if isMixed then
          match denominator with
          | .upToDigits _ =>
              findBestFraction fracPart (10 ^ paddingWidth - 1)
          | .fixed d => ((qround (fracPart * d)).toNat, d)
        else
          match denominator with
          | .upToDigits _ =>
              findBestFraction absValue (10 ^ paddingWidth - 1)
          | .fixed d => ((qround (absValue * d)).toNat, d)
      let (num₀, denom) := pair
      let (integerPart, num) : ℤ × ℕ :=
        if isMixed ∧ denom ≤ num₀ ∧ 0 < denom then
          (integerPart₀ + (num₀ / denom : ℕ), num₀ % denom)
        else (integerPart₀, num₀)
      let sign := if value < 0 then "-" else ""
      let intRegion :=
        if isMixed then
          (if 0 < integerPart ∨ num = 0 then
            (if integerDigits ≠ [] then
              formatFractionPart integerPart.toNat integerDigits
            else toString integerPart)
          else if integerDigits ≠ [] then
            String.mk (integerDigits.filterMap (·.emptyChar))
          else "") ++ " "
        else ""
      let fracRegion :=
        if isMixed ∧ num = 0 then
          let totalSpaces :=
            match denominator with
            | .fixed _ =>
                numeratorDigits.length + 1 + (natDigits denom).length +
                  sbs.utf8ByteSize + sas.utf8ByteSize
            | .upToDigits _ =>
                2 * paddingWidth + 1 + sbs.utf8ByteSize + sas.utf8ByteSize
          String.mk (List.replicate totalSpaces ' ')
        else
          let numStr := natDigits num
          let denomStr := natDigits denom
          let numRegion :=
            if integerDigits ≠ [] then
              let padWidth :=
                match denominator with
                | .upToDigits _ => paddingWidth
                | .fixed _ => numeratorDigits.length
              String.mk (List.replicate (padWidth - numStr.length) ' ') ++
                String.mk numStr
            else formatFractionPart num numeratorDigits
          numRegion ++ sbs ++ "/" ++ sas ++
            (match denominator with
             | .upToDigits _ =>
                 String.mk denomStr ++
                   String.mk (List.replicate (paddingWidth - denomStr.length) ' ')
             | .fixed _ => String.mk denomStr)
      .ok (sign ++ intRegion ++ fracRegion)

/-- Literal rendering of the no-numeric-parts branches of
`format_number` (src/formatter/number.rs lines 249-291). -/
def literalishStr (p : FormatPart) : String :=
  match p with
  | .literal s => s
  | .escapedLiteral s => s
  | .locale code => code.currency.getD ""
  | .percent => "%"
  | .skip _ => " "
  | _ => ""

/-- Embeds `format_number` (src/formatter/number.rs lines 193-319). -/
def formatNumber (value : ℚ) (s : Section) (opts : FormatOptions) :
    Except FormatError String :=
  let scientificPart := s.parts.findSome? (fun p =>
    match p with
    | .scientific u sp => some (u, sp)
    | _ => none)
  match scientificPart with
  | some (upper, showPlus) => formatScientific value s upper showPlus opts
  | none =>
      if s.parts.any (fun p => p matches .fraction _ _ _ _ _) then
        formatFraction value s opts
      else
        let hasNumericParts := s.parts.any (fun p =>
          p matches .digit _ || p matches .decimalPoint)
        let hasTextPlaceholder := s.parts.any (fun p =>
          p matches .textPlaceholder)
        if hasTextPlaceholder ∧ ¬hasNumericParts then
          .ok (fallbackFormat value)
        else if ¬hasNumericParts then
          if s.parts.any (fun p => p matches .generalNumber) then
            .ok (fallbackFormat value ++
              String.join (s.parts.map literalishStr))
          else .ok (String.join (s.parts.map literalishStr))
        else
          let analysis := analyzeFormat s
          let adjusted :=
            |value| * 100 ^ analysis.percentCount / 1000 ^ analysis.thousandsScale
          let decimalPlaces := analysis.decimalPlaceholders.length
          let multiplier : ℚ := 10 ^ decimalPlaces
          let rounded := (qround (adjusted * multiplier) : ℚ) / multiplier
          let formatted := formatWithPlaceholders rounded analysis opts
          .ok (buildResult analysis formatted opts)

/-! ## Hijri conversion (`src/hijri.rs`), over the rational model -/

/-- Embeds `gregorian_to_jdn` (src/hijri.rs lines 38-76). -/
def gregorianToJdn (year month day : ℤ) : ℤ :=
  let ym : ℤ × ℤ := if month < 3 then (year - 1, month + 12) else (year, month)
  let (y, m) := ym
  let a := Int.tdiv y 100
  let b₀ := 2 - a + Int.tdiv a 4
  let b :=
    if year < 1583 then 0
    else if year = 1582 then
      if 10 < month then -10
      else if month = 10 then (if 4 < day then -10 else 0)
      else 0
    else b₀
  qfloor ((365.25 : ℚ) * ((y : ℚ) + 4716)) + qfloor ((30.6001 : ℚ) * ((m : ℚ) + 1)) +
    day + b - 1524

/-- Embeds `jdn_to_hijri` (src/hijri.rs lines 79-117), the Kuwaiti
tabular algorithm; float-to-unsigned casts saturate below at 0. -/
def jdnToHijri (jd : ℤ) : ℤ × ℤ × ℤ :=
  let epochAstro : ℤ := 1948084
  let iyear : ℚ := 10631 / 30
  let shift1 : ℚ := (8.01 : ℚ) / 60
  let z₀ : ℚ := ((jd - epochAstro : ℤ) : ℚ)
  let cyc : ℤ := qfloor (z₀ / 10631)
  let z₁ := z₀ - 10631 * (cyc : ℚ)
  let j : ℤ := qfloor ((z₁ - shift1) / iyear)
  let iy := 30 * cyc + j
  let z₂ := z₁ - (qfloor ((j : ℚ) * iyear + shift1) : ℚ)
  let imCalc : ℕ := (qfloor ((z₂ + (28.5001 : ℚ)) / (29.5 : ℚ))).toNat
  let im : ℤ := if imCalc = 13 then 12 else imCalc
  let idRaw := z₂ - (qfloor ((29.5001 : ℚ) * (im : ℚ) - 29) : ℚ)
  let id₀ : ℤ := (qtrunc idRaw).toNat + 1
  let id₁ := if id₀ = 0 then 1 else id₀
  let id := max 1 (min id₁ 30)
  (iy, im, id)

/-- Embeds `gregorian_to_hijri` (src/hijri.rs lines 30-36). -/
def gregorianToHijri (year month day : ℤ) : ℤ × ℤ × ℤ :=
  jdnToHijri (gregorianToJdn year month day)

/-! ## Date formatting (`src/formatter/date.rs`) -/

/-- ASCII uppercasing, for `str::to_uppercase` on the locale's ASCII
AM/PM strings. -/
def asciiUpper (c : Char) : Char :=
  if 'a' ≤ c ∧ c ≤ 'z' then Char.ofNat (c.toNat - 32) else c

/-- `str::to_uppercase` on ASCII strings. -/
def strToUpper (s : String) : String := String.mk (s.data.map asciiUpper)

/-- Embeds `to_12_hour` (src/formatter/date.rs lines 288-294). -/
def to12Hour (hour : ℤ) : ℤ :=
  if hour = 0 then 12
  else if 1 ≤ hour ∧ hour ≤ 12 then hour
  else hour - 12

/-- Embeds `format_ampm` (src/formatter/date.rs lines 297-330); the
malformed styles render `A0/P`, `A1/P` (resp. lowercase) keyed on the
12-hour value. -/
def formatAmPm (style : AmPmStyle) (hour : ℤ) (locale : Locale) : String :=
  let isPm := 12 ≤ hour
  match style with
  | .upper =>
      if isPm then strToUpper locale.pmString else strToUpper locale.amString
  | .lower =>
      if isPm then strToUpper locale.pmString else strToUpper locale.amString
  | .shortUpper => if isPm then "P" else "A"
  | .shortLower => if isPm then "P" else "A"
  | .malformedUpper =>
      let digit := if to12Hour hour = 12 then "1" else "0"
      "A" ++ digit ++ "/P"
  | .malformedLower =>
      let digit := if to12Hour hour = 12 then "1" else "0"
      "a" ++ digit ++ "/p"

/-- Embeds `apply_time_prerounding` (src/formatter/date.rs
lines 335-424). -/
def applyTimePrerounding (hour minute second : ℤ) (subseconds : ℚ)
    (smallestUnit : TimeUnit) (subsecondPrecision : Option ℕ) : ℤ × ℤ × ℤ :=
  match smallestUnit with
  | .hours =>
      let sec := if 1/2 ≤ subseconds then second + 1 else second
      let (sec, min') :=
        if 60 ≤ sec then ((0 : ℤ), minute + 1) else (sec, minute)
      let (min', hr) :=
        if 60 ≤ min' then ((0 : ℤ), hour + 1) else (min', hour)
      let hr := if 24 ≤ hr then Int.tmod hr 24 else hr
      (hr, min', sec)
  | .minutes =>
      let sec := if 1/2 ≤ subseconds then second + 1 else second
      let (sec, min') :=
        if 60 ≤ sec then ((0 : ℤ), minute + 1) else (sec, minute)
      let min' := if 60 ≤ min' then Int.tmod min' 60 else min'
      (hour, min', sec)
  | .seconds =>
      let sec := if 1/2 ≤ subseconds then second + 1 else second
      let sec := if 60 ≤ sec then Int.tmod sec 60 else sec
      (hour, minute, sec)
  | .subseconds =>
      match subsecondPrecision with
      | some precision =>
          let threshold : ℚ := 1 - (1/2) / 10 ^ precision
          if threshold ≤ subseconds then
            let sec := second + 1
            let sec := if 60 ≤ sec then Int.tmod sec 60 else sec
            (hour, minute, sec)
          else (hour, minute, second)
      | none => (hour, minute, second)
  | .none => (hour, minute, second)

/-- Embeds `format_elapsed` (src/formatter/date.rs lines 427-508):
elapsed totals with per-kind pre-rounding; the two-digit kinds pad with
`%02`. -/
def formatElapsed (part : ElapsedPart) (serialValue : ℚ) : String :=
  let date₀ : ℤ := qfloor serialValue
  let frac := serialValue - (date₀ : ℚ)
  let timeSeconds₀ : ℤ := qfloor (86400 * frac)
  let subseconds₀ : ℚ := 86400 * frac - (timeSeconds₀ : ℚ)
  let dts : ℤ × ℤ × ℚ :=
    if (0.9999 : ℚ) < subseconds₀ then
      if timeSeconds₀ + 1 = 86400 then (date₀ + 1, 0, 0)
      else (date₀, timeSeconds₀ + 1, 0)
    else (date₀, timeSeconds₀, subseconds₀)
  let date := dts.1
  let timeSeconds := dts.2.1
  let subseconds := dts.2.2
  let seconds := Int.tmod timeSeconds 60
  let minutes := Int.tmod (Int.tdiv timeSeconds 60) 60
  let hours := Int.tdiv timeSeconds 3600
  match part with
  | .hours | .hours2 =>
      let sec₁ := if 1/2 ≤ subseconds then seconds + 1 else seconds
      let min₁ := if 60 ≤ sec₁ then minutes + 1 else minutes
      let hr₁ := if 60 ≤ min₁ then hours + 1 else hours
      let totalHours := date * 24 + hr₁
      if part = .hours2 then padZeroSigned 2 totalHours
      else toString totalHours
  | .minutes | .minutes2 =>
      let sec₁ := if 1/2 ≤ subseconds then seconds + 1 else seconds
      let min₁ := if 60 ≤ sec₁ then minutes + 1 else minutes
      let totalMinutes := (date * 24 + hours) * 60 + min₁
      if part = .minutes2 then padZeroSigned 2 totalMinutes
      else toString totalMinutes
  | .seconds | .seconds2 =>
      let totalSeconds :=
        ((date * 24 + hours) * 60 + minutes) * 60 +
          qround ((seconds : ℚ) + subseconds)
      if part = .seconds2 then padZeroSigned 2 totalSeconds
      else toString totalSeconds

/-- Embeds `format_date_part` (src/formatter/date.rs lines 172-284).
Name-array indexing uses a default for out-of-range indices, where the
Rust code would panic. -/
def formatDatePart (part : DatePart) (year month day hour minute second : ℤ)
    (weekday : ℕ) (hasAmpm : Bool) (serial : ℚ)
    (hasMultipleSubseconds : Bool) (locale : Locale) : String :=
  match part with
  | .year2 => padZeroSigned 2 (Int.tmod year 100)
  | .year3 => padZeroSigned 3 year
  | .year4 => padZeroSigned 4 year
  | .buddhistYear2 => padZeroSigned 2 (Int.tmod (year + 543) 100)
  | .buddhistYear4 => padZeroSigned 4 (year + 543)
  | .buddhistYear4Alt => padZeroSigned 4 year
  | .buddhistYear2Alt => padZeroSigned 2 (Int.tmod year 100)
  | .month => toString month
  | .month2 => padZeroSigned 2 month
  | .monthAbbr => locale.monthNamesShort.getD (month - 1).toNat ""
  | .monthFull => locale.monthNamesFull.getD (month - 1).toNat ""
  | .monthLetter =>
      match (locale.monthNamesFull.getD (month - 1).toNat "").data with
      | c :: _ => String.mk [c]
      | [] => "?"
  | .day => toString day
  | .day2 => padZeroSigned 2 day
  | .dayAbbr => locale.dayNamesShort.getD (weekday - 1) ""
  | .dayFull => locale.dayNamesFull.getD (weekday - 1) ""
  | .hour => toString (if hasAmpm then to12Hour hour else hour)
  | .hour2 => padZeroSigned 2 (if hasAmpm then to12Hour hour else hour)
  | .minute => toString minute
  | .minute2 => padZeroSigned 2 minute
  | .second => toString second
  | .second2 => padZeroSigned 2 second
  | .subSecond places =>
      let timeFraction := |qfract serial|
      let totalSeconds := timeFraction * 86400
      let subsecondFraction := qfract totalSeconds
      if places = 0 then ""
      else
        let multiplier : ℕ := 10 ^ places
        let highPrecision := (qround (subsecondFraction * 10000) : ℚ) / 10000
        let subsec : ℕ :=
          if hasMultipleSubseconds then
            (qtrunc (highPrecision * multiplier)).toNat % multiplier
          else (qround (highPrecision * multiplier)).toNat % multiplier
        padZeroSigned places subsec

/-- Embeds `format_date` (src/formatter/date.rs lines 10-168): empty
string for out-of-range serials, then date/time resolution, optional
Hijri fixup, pre-rounding, and part-by-part rendering. -/
def formatDate (value : ℚ) (s : Section) (opts : FormatOptions) :
    Except FormatError String :=
  if ¬(0 ≤ value ∧ value ≤ 2958465) then .ok ""
  else
    let md := sectionMetadata s
    let isHijri := md.isHijri
    let hasAmpm := md.hasAmpm
    let hasMultipleSubseconds :=
      1 < (s.parts.filter (fun p =>
        p matches .datePart (.subSecond _))).length
    let adjustedValue :=
      if |value - (qround value : ℚ)| < 1 / 10 ^ 10 then
        ((qround value : ℤ) : ℚ)
      else value
    let ymdE : Except FormatError (ℤ × ℤ × ℤ) :=
      if 1 ≤ value then
        match serialToDate value opts.dateSystem with
        | some ymd => .ok ymd
        | none => .error (.dateOutOfRange value)
      else .ok (1900, 1, 0)
    match ymdE with
    | .error e => .error e
    | .ok (year₀, month₀, day₀) =>
        let ymd : ℤ × ℤ × ℤ :=
          if isHijri then
            let days : ℤ := qfloor value
            if days = 60 then (1317, 10, 29)
            else if days = 0 then (1317, 8, 29)
            else gregorianToHijri year₀ month₀ day₀
          else (year₀, month₀, day₀)
        let (year, month, day) := ymd
        let hasSubseconds := md.maxSubsecondPrecision.isSome
        let (hour₀, minute₀, second₀) :=
          serialToTimeWithRounding adjustedValue (¬hasSubseconds)
        let hms : ℤ × ℤ × ℤ :=
          if hasSubseconds then
            let fraction := |qfract adjustedValue|
            let totalSeconds := (qround (fraction * 86400 * 1000) : ℚ) / 1000
            let subseconds := totalSeconds - (qfloor totalSeconds : ℚ)
            applyTimePrerounding hour₀ minute₀ second₀ subseconds
              md.smallestTimeUnit md.maxSubsecondPrecision
          else (hour₀, minute₀, second₀)
        let (hour, minute, second) := hms
        let weekday := serialToWeekday (qfloor value) opts.dateSystem
        let renderPart := fun (p : FormatPart) =>
          match p with
          | .datePart dp =>
              formatDatePart dp year month day hour minute second weekday
                hasAmpm value hasMultipleSubseconds opts.locale
          | .amPm style => formatAmPm style hour opts.locale
          | .elapsed ep => formatElapsed ep adjustedValue
          | .literal str => str
          | .escapedLiteral str => str
          | .skip c => String.mk [c]
          | .fill _ => ""
          | .thousandsSeparator => String.mk [opts.locale.thousandsSeparator]
          | .decimalPoint => String.mk [opts.locale.decimalSeparator]
          | _ => ""
        .ok (String.join (s.parts.map renderPart))

/-! ## Section selection and the formatting entry point
(`src/formatter/mod.rs`) -/

/-- Embeds the per-section test of the first-match loop inside
`select_section` (src/formatter/mod.rs lines 119-131): a section is
picked when its condition evaluates true, or when it has no condition
at all. -/
def sectionMatches (value : ℚ) (s : Section) : Bool :=
  match s.condition with
  | some c => c.evaluate value
  | none => true

/-- Embeds `NumberFormat::select_section`
(src/formatter/mod.rs lines 115-166).  With conditions present the walk
returns the first section whose condition holds *or* which has no
condition; without conditions, selection is by section count.  The
empty-sections case is `unreachable!` in Rust (parsing always yields at
least one section); the model returns an empty section there. -/
def selectSection (nf : NumberFormat) (value : ℚ) : Section :=
  let sections := nf.sections
  let hasConditions := sections.any (·.condition.isSome)
  if hasConditions then
    match sections.find? (sectionMatches value) with
    | some s => s
    | none => sections.getLast?.getD ⟨none, none, []⟩
  else
    match sections with
    | [] => ⟨none, none, []⟩
    | [s₀] => s₀
    | [s₀, s₁] => if value < 0 then s₁ else s₀
    | s₀ :: s₁ :: s₂ :: rest =>
        if rest.length ≤ 1 then
          if 0 < value then s₀
          else if value < 0 then s₁
          else
            if s₂.hasTextPlaceholder ∧
                ¬s₂.parts.any (fun p => p.isNumericPart ||
                  (p matches .literal _) || (p matches .escapedLiteral _)) then
              s₀
            else s₂
        else s₀

/-- The minus-sign decision of `try_format`
(src/formatter/mod.rs lines 74-93): only single-section formats prepend
an implicit minus, and only for numeric or single-character-literal
sections without fraction or scientific parts, when the value is not
being formatted as an absolute value. -/
def needMinusSign (nf : NumberFormat) (sec : Section) (value : ℚ)
    (useAbsValue : Bool) : Bool :=
  let hasNumericParts := sec.parts.any (·.isNumericPart)
  let isSingleCharLiteral :=
    match sec.parts with
    | [.literal str] => str.utf8ByteSize = 1
    | _ => false
  let hasFraction := sec.parts.any (fun p => p matches .fraction _ _ _ _ _)
  let hasScientific := sec.parts.any (fun p => p matches .scientific _ _)
  decide (nf.sections.length = 1) && decide (value < 0) &&
    (hasNumericParts || isSingleCharLiteral) && !useAbsValue &&
    !hasFraction && !hasScientific

/-- Embeds `NumberFormat::try_format`
(src/formatter/mod.rs lines 30-106).  The NaN/infinity branches of the
Rust code are vacuous in the rational model of `f64` and drop out. -/
def tryFormat (nf : NumberFormat) (value : ℚ) (opts : FormatOptions) :
    Except FormatError String :=
  let sec := selectSection nf value
  let hasConditions := nf.sections.any (·.condition.isSome)
  let useAbsValue := hasConditions &&
    (match sec.condition with
     | some c => c.isStrictMatch value
     | none => false)
  let formatValue := if useAbsValue then |value| else value
  if sec.parts = [] then
    let truncatedValue :=
      if useAbsValue ∧ qfract formatValue ≠ 0 then
        ((qtrunc formatValue : ℤ) : ℚ)
      else formatValue
    .ok (fallbackFormat truncatedValue)
  else if sec.hasDateParts then
    formatDate formatValue sec opts
  else
    match formatNumber formatValue sec opts with
    | .error e => .error e
    | .ok result =>
        .ok (if needMinusSign nf sec value useAbsValue then "-" ++ result
             else result)

/-! ## Supporting lemmas for the claims -/

/-- Truncated remainder by 7 lies strictly between `-7` and `7`. -/
theorem tmod7_bounds (a : ℤ) : -7 < a.tmod 7 ∧ a.tmod 7 < 7 := by
  constructor
  · cases a with
    | ofNat m =>
        have h : 0 ≤ Int.tmod (Int.ofNat m) 7 :=
          Int.tmod_nonneg _ (Int.ofNat_nonneg m)
        omega
    | negSucc m =>
        have h : (Int.negSucc m).tmod 7 = -(Int.ofNat ((m + 1) % 7)) := rfl
        have h₂ : (m + 1) % 7 < 7 := Nat.mod_lt _ (by norm_num)
        have h₃ : Int.ofNat ((m + 1) % 7) = (((m + 1) % 7 : ℕ) : ℤ) := rfl
        omega
  · exact Int.tmod_lt_of_pos a (by norm_num)

/-! ## The claims -/

/-- C1: the round-trip `serial_to_date (date_to_serial (Y,M,D))`
claimed for every listed date in *both* date systems fails in the 1904
system at (1900,1,1): the 1904-system serial of Jan 1, 1900 is the
negative number −1461, and `serial_to_date` returns `None` for every
serial below 1 (src/date_serial.rs lines 41-43). -/
theorem C1_cex_1904_roundtrip_none :
    serialToDate (dateToSerial 1900 1 1 .date1904) .date1904 = none := by
  with_unfolding_all rfl

set_option maxRecDepth 40000 in
/-- C1 (amended): the five listed dates round-trip in the 1900 system;
in the 1904 system the three dates on or after the 1904 epoch
round-trip, while the two 1900 dates yield a negative serial on which
`serial_to_date` returns `None`; and the phantom leap day satisfies
`date_to_serial (1900,2,29) = 60` and
`serial_to_date 60 = some (1900,2,29)` in the 1900 system. -/
theorem C1_roundtrip_dates :
    (serialToDate (dateToSerial 1900 1 1 .date1900) .date1900 =
      some (1900, 1, 1)) ∧
    (serialToDate (dateToSerial 1900 3 1 .date1900) .date1900 =
      some (1900, 3, 1)) ∧
    (serialToDate (dateToSerial 2000 2 29 .date1900) .date1900 =
      some (2000, 2, 29)) ∧
    (serialToDate (dateToSerial 2024 12 31 .date1900) .date1900 =
      some (2024, 12, 31)) ∧
    (serialToDate (dateToSerial 2026 1 9 .date1900) .date1900 =
      some (2026, 1, 9)) ∧
    (serialToDate (dateToSerial 2000 2 29 .date1904) .date1904 =
      some (2000, 2, 29)) ∧
    (serialToDate (dateToSerial 2024 12 31 .date1904) .date1904 =
      some (2024, 12, 31)) ∧
    (serialToDate (dateToSerial 2026 1 9 .date1904) .date1904 =
      some (2026, 1, 9)) ∧
    (serialToDate (dateToSerial 1900 3 1 .date1904) .date1904 = none) ∧
    (dateToSerial 1900 2 29 .date1900 = 60) ∧
    (serialToDate 60 .date1900 = some (1900, 2, 29)) := by
  with_unfolding_all decide

/-- C10: `serial_to_weekday` does *not* stay within `1..=7` for every
serial in the 1904 system: at serial −10 the intermediate
`(days + 5) % 7 + 1 = -4` and the `as u32` cast wraps to
4294967292, and at serial −6 the intermediate is 0, outside `1..=7`
without wrapping (src/date_serial.rs lines 239-244). -/
theorem C10_cex_weekday_wraps :
    serialToWeekday (-10) .date1904 = 4294967292 ∧
    serialToWeekday (-6) .date1904 = 0 := by
  with_unfolding_all decide

/-- C10 (amended): in the 1900 system the weekday is in `1..=7` for
every integer day count, with day 1 mapping to 1 (Sunday); in the 1904
system the result is in `1..=7` whenever the day count is at least −5.
Below −5 that guarantee fails but not uniformly: depending on
`days % 7` the result is in range (serial −12 gives 1), is 0
(serial −6), or wraps through the `as u32` cast (serial −10 gives
4294967292). -/
theorem C10_weekday_range (days : ℤ) :
    (1 ≤ serialToWeekday days .date1900 ∧
      serialToWeekday days .date1900 ≤ 7) ∧
    serialToWeekday 1 .date1900 = 1 ∧
    (-5 ≤ days →
      1 ≤ serialToWeekday days .date1904 ∧
        serialToWeekday days .date1904 ≤ 7) ∧
    serialToWeekday (-12) .date1904 = 1 := by
  refine ⟨?_, by with_unfolding_all decide, ?_,
    by with_unfolding_all decide⟩
  · have h₁ := tmod7_bounds (days - 1)
    have h₂ : 0 ≤ (days - 1).tmod 7 + 7 := by omega
    have h₃ : ((days - 1).tmod 7 + 7).tmod 7 =
        ((days - 1).tmod 7 + 7) % 7 :=
      Int.tmod_eq_emod h₂ (by norm_num)
    have h₄ : 0 ≤ ((days - 1).tmod 7 + 7) % 7 :=
      Int.emod_nonneg _ (by norm_num)
    have h₅ : ((days - 1).tmod 7 + 7) % 7 < 7 :=
      Int.emod_lt_of_pos _ (by norm_num)
    simp only [serialToWeekday]
    omega
  · intro hdays
    have h₁ : 0 ≤ (days + 5).tmod 7 := Int.tmod_nonneg _ (by omega)
    have h₂ : (days + 5).tmod 7 < 7 := Int.tmod_lt_of_pos _ (by norm_num)
    simp only [serialToWeekday, castU32]
    have h₃ : ((days + 5).tmod 7 + 1) % (2 ^ 32 : ℤ) =
        (days + 5).tmod 7 + 1 := by
      apply Int.emod_eq_of_lt (by omega)
      norm_num
      omega
    omega

/-- C10 witness: the amended range bounds instantiated at concrete
serials, discharging the 1904-side hypothesis at day 3. -/
theorem C10_weekday_range_witness :
    (1 ≤ serialToWeekday (-10) .date1900 ∧
      serialToWeekday (-10) .date1900 ≤ 7) ∧
    (1 ≤ serialToWeekday 3 .date1904 ∧ serialToWeekday 3 .date1904 ≤ 7) :=
  ⟨(C10_weekday_range (-10)).1, (C10_weekday_range 3).2.2.1 (by norm_num)⟩

/-- C5: for every serial outside `0..=2958465`, `format_date` on a
section with date parts returns `Ok` with the empty string — the
out-of-range guard fires before anything can error
(src/formatter/date.rs lines 15-19). -/
theorem C5_out_of_range_empty (v : ℚ) (s : Section) (opts : FormatOptions)
    (hd : s.hasDateParts = true) (h : v < 0 ∨ 2958465 < v) :
    formatDate v s opts = .ok "" := by
  have hc : ¬(0 ≤ v ∧ v ≤ 2958465) := by
    rcases h with h | h
    · exact fun hx => absurd hx.1 (not_le.mpr h)
    · exact fun hx => absurd hx.2 (not_le.mpr h)
  unfold formatDate
  rw [if_pos hc]

/-- C5 witness: a negative serial with a year-part section renders the
empty string. -/
theorem C5_out_of_range_empty_witness :
    formatDate (-1) ⟨none, none, [.datePart .year4]⟩ defaultOpts = .ok "" :=
  C5_out_of_range_empty (-1) ⟨none, none, [.datePart .year4]⟩ defaultOpts
    (by with_unfolding_all decide) (Or.inl (by norm_num))

/-- C7: the malformed `AM/P` rendering (`A0/P`/`A1/P`, implemented by
`format_ampm` exactly as the claim and the `ast.rs` doc comments say) is
unreachable: `parse_am_pm_style` never returns a malformed style for
any slice, and the lexer has no four-character `AM/P` keyword — at the
`A` of `AM/P`, the `(?i)AM/PM` and `(?i)A/P` patterns both fail and the
lexer falls back to the literal `A`, after which the `M` begins a
month/minute run.  Consequently `hh:mm AM/P` parses with a Minute part
between the literals `A` and `/`,`P`, and at serial 25/32 (18:45) it
renders `18:45 A45/P` — 24-hour hours and the minutes injected into the
would-be keyword — not the claimed 12-hour `A0/P` rendering. -/
theorem C7_malformed_ampm_unreachable :
    (∀ s : String, parseAmPmStyle s ≠ .malformedUpper ∧
      parseAmPmStyle s ≠ .malformedLower) ∧
    lexStep 'A' "M/P".data 0 =
      .ok ([⟨.literal 'A', 0, 1⟩], "M/P".data, 1) ∧
    formatAmPm .malformedUpper 12 Locale.enUs = "A1/P" ∧
    formatAmPm .malformedUpper 18 Locale.enUs = "A0/P" ∧
    formatAmPm .malformedLower 0 Locale.enUs = "a1/p" ∧
    (parse "hh:mm AM/P" = .ok ⟨[⟨none, none,
        [.datePart .hour2, .literal ":", .datePart .minute2, .literal " ",
         .literal "A", .datePart .minute, .literal "/", .literal "P"]⟩]⟩ ∧
      tryFormat ⟨[⟨none, none,
        [.datePart .hour2, .literal ":", .datePart .minute2, .literal " ",
         .literal "A", .datePart .minute, .literal "/", .literal "P"]⟩]⟩
        (25/32) defaultOpts = .ok "18:45 A45/P") := by
  refine ⟨fun s => ?_, by with_unfolding_all rfl, by with_unfolding_all rfl,
    by with_unfolding_all rfl, by with_unfolding_all rfl,
    by with_unfolding_all decide⟩
  unfold parseAmPmStyle
  split_ifs <;> refine ⟨?_, ?_⟩ <;> (try split) <;>
    (try (simp only []; split)) <;> decide

/-- C6: `[hh]` does *not* compile to a zero-padded elapsed kind:
`try_parse_elapsed` maps it to the unpadded `Hours`, and at serial 1/4
(six elapsed hours, a single digit) the rendered output is `"6"`, with
no leading zero. -/
theorem C6_cex_hh_unpadded :
    parse "[hh]" = .ok ⟨[⟨none, none, [.elapsed .hours]⟩]⟩ ∧
    tryFormat ⟨[⟨none, none, [.elapsed .hours]⟩]⟩ (1/4) defaultOpts =
      .ok "6" := by
  with_unfolding_all decide

/-- C6 (amended): `try_parse_elapsed` maps both the one- and two-letter
bracket contents to the same unpadded kinds `Hours`/`Minutes`/`Seconds`;
the zero-padded kinds `Hours2`/`Minutes2`/`Seconds2` of `format_elapsed`
do render with `%02` (at least two characters, with a leading zero on
single-digit totals), but the parser never produces them. -/
theorem C6_elapsed_mapping :
    (tryParseElapsed "h".data = some .hours ∧
      tryParseElapsed "hh".data = some .hours ∧
      tryParseElapsed "m".data = some .minutes ∧
      tryParseElapsed "mm".data = some .minutes ∧
      tryParseElapsed "s".data = some .seconds ∧
      tryParseElapsed "ss".data = some .seconds) ∧
    (formatElapsed .hours2 (1/4) = "06" ∧
      formatElapsed .minutes2 (1/288) = "05" ∧
      formatElapsed .seconds2 (1/17280) = "05" ∧
      formatElapsed .hours (1/4) = "6" ∧
      formatElapsed .minutes (1/288) = "5" ∧
      formatElapsed .seconds (1/17280) = "5") ∧
    (∀ v : ℚ, 2 ≤ (formatElapsed .hours2 v).length ∧
      2 ≤ (formatElapsed .minutes2 v).length ∧
      2 ≤ (formatElapsed .seconds2 v).length) := by
  refine ⟨by with_unfolding_all decide, by with_unfolding_all decide,
    fun v => ?_⟩
  have hpad : ∀ x : ℤ, 2 ≤ (padZeroSigned 2 x).length := by
    intro x
    show 2 ≤ (String.mk _).data.length
    simp only [padZeroSigned, List.length_append, List.length_replicate]
    by_cases hx : x < 0 <;> simp [hx] <;> omega
  refine ⟨?_, ?_, ?_⟩ <;> simp only [formatElapsed] <;> exact hpad _

/-- C8: the continued-fraction cap for a *mixed* fraction with a
variable denominator is not `10^min(k,7) − 1`: for `# ??/?` (numerator
width 2, `UpToDigits 1`) the code caps at `10^min(max(2,1),7) − 1 = 99`,
and at value 1/16 the displayed denominator is 16, which exceeds the
claimed cap `10^min(1,7) − 1 = 9`. -/
theorem C8_cex_mixed_cap :
    parse "# ??/?" = .ok ⟨[⟨none, none,
      [.fraction [.hash] [.question, .question] (.upToDigits 1) "" ""]⟩]⟩ ∧
    tryFormat ⟨[⟨none, none,
      [.fraction [.hash] [.question, .question] (.upToDigits 1) "" ""]⟩]⟩
      (1/16) defaultOpts = .ok "  1/16" ∧
    findBestFraction (1/16) 99 = (1, 16) ∧
    (9 : ℕ) = 10 ^ min 1 7 - 1 ∧ 9 < 16 := by
  with_unfolding_all decide

/-- C4: `m`/`mm` runs compile to Minute kinds exactly when the section
has already seen an hour token (`month_date_part` keyed on the
`seen_hour` flag); concretely, `hh:mm` at serial 1/2 renders `12:00`
(minutes), `mm-dd` at serial 46031 renders `01-09` (months), and in
`hh:mm;mm` the second section's `mm` is again a month because
`seen_hour` resets at each section boundary. -/
theorem C4_minute_vs_month :
    (∀ (b : Bool) (n : ℕ),
      (monthDatePart b n = .minute ∨ monthDatePart b n = .minute2) ↔
        b = true) ∧
    parse "hh:mm" = .ok ⟨[⟨none, none,
      [.datePart .hour2, .literal ":", .datePart .minute2]⟩]⟩ ∧
    tryFormat ⟨[⟨none, none,
      [.datePart .hour2, .literal ":", .datePart .minute2]⟩]⟩ (1/2)
      defaultOpts = .ok "12:00" ∧
    parse "mm-dd" = .ok ⟨[⟨none, none,
      [.datePart .month2, .literal "-", .datePart .day2]⟩]⟩ ∧
    tryFormat ⟨[⟨none, none,
      [.datePart .month2, .literal "-", .datePart .day2]⟩]⟩ 46031
      defaultOpts = .ok "01-09" ∧
    parse "hh:mm;mm" = .ok ⟨[⟨none, none,
      [.datePart .hour2, .literal ":", .datePart .minute2]⟩,
      ⟨none, none, [.datePart .month2]⟩]⟩ := by
  refine ⟨fun b n => ?_, by with_unfolding_all decide⟩
  cases b with
  | false =>
      constructor
      · intro h
        rcases n with _ | _ | _ | _ | _ | n <;>
          simp [monthDatePart] at h
      · intro h; exact absurd h (by simp)
  | true =>
      by_cases h : 2 ≤ n <;> simp [monthDatePart, h]

/-- First-match characterization of `List.find?`: if position `i` holds
and all earlier positions fail, `find?` returns the element at `i`. -/
theorem find?_eq_get_first {α : Type} (p : α → Bool) :
    ∀ (l : List α) (i : ℕ) (hi : i < l.length),
      p (l.get ⟨i, hi⟩) = true →
      (∀ j, (hj : j < i) →
        p (l.get ⟨j, Nat.lt_trans hj hi⟩) = false) →
      l.find? p = some (l.get ⟨i, hi⟩)
  | [], i, hi, _, _ => absurd hi (Nat.not_lt_zero i)
  | a :: t, 0, _, hp, _ => by
      simp only [List.get] at hp
      simp [List.find?, hp]
  | a :: t, n + 1, hi, hp, hb => by
      have ha : p a = false := hb 0 (Nat.succ_pos n)
      have ih := find?_eq_get_first p t n (Nat.lt_of_succ_lt_succ hi) hp
        (fun j hj => hb (j + 1) (Nat.succ_lt_succ hj))
      simp [List.find?, ha, ih]

/-- C3: an unconditioned section placed *before* a section whose
condition evaluates true preempts it — the walk accepts the first
section that matches *or has no condition*, not the first whose
condition evaluates true: here the second section's condition `>100`
holds at 150, yet the first (unconditioned) section is selected. -/
theorem C3_cex_unconditional_preempts :
    Condition.evaluate (.greaterThan 100) 150 = true ∧
    selectSection ⟨[⟨none, none, [.literal "A"]⟩,
      ⟨some (.greaterThan 100), none, [.literal "B"]⟩]⟩ 150 =
      ⟨none, none, [.literal "A"]⟩ ∧
    Section.mk none none [.literal "A"] ≠
      ⟨some (.greaterThan 100), none, [.literal "B"]⟩ := by
  with_unfolding_all decide

/-- C3 (amended): when some section carries a condition, selection
walks the sections in order and picks the first that either has a true
condition or has no condition at all (`sectionMatches`); if no section
qualifies, the last section is picked. -/
theorem C3_conditional_selection (nf : NumberFormat) (v : ℚ)
    (hc : nf.sections.any (fun s => s.condition.isSome) = true) :
    (∀ i, (hi : i < nf.sections.length) →
      sectionMatches v (nf.sections.get ⟨i, hi⟩) = true →
      (∀ j, (hj : j < i) →
        sectionMatches v (nf.sections.get ⟨j, Nat.lt_trans hj hi⟩) =
          false) →
      selectSection nf v = nf.sections.get ⟨i, hi⟩) ∧
    ((∀ s ∈ nf.sections, sectionMatches v s = false) →
      ∀ hne : nf.sections ≠ [],
        selectSection nf v = nf.sections.getLast hne) := by
  constructor
  · intro i hi hp hb
    have hfind := find?_eq_get_first (sectionMatches v) nf.sections i hi hp hb
    simp [selectSection, hc, hfind]
  · intro hall hne
    have hfind : nf.sections.find? (sectionMatches v) = none :=
      List.find?_eq_none.mpr (fun x hx => by simp [hall x hx])
    simp [selectSection, hc, hfind, List.getLast?_eq_getLast _ hne]

/-- C3 witness: with a true `>100` condition in front, the conditioned
section is selected at 150, by the amended first-match rule at index 0. -/
theorem C3_conditional_selection_witness :
    selectSection ⟨[⟨some (.greaterThan 100), none, [.literal "B"]⟩,
      ⟨none, none, [.literal "A"]⟩]⟩ 150 =
      ⟨some (.greaterThan 100), none, [.literal "B"]⟩ :=
  (C3_conditional_selection
      ⟨[⟨some (.greaterThan 100), none, [.literal "B"]⟩,
        ⟨none, none, [.literal "A"]⟩]⟩ 150
      (by with_unfolding_all decide)).1 0 (by decide)
    (by with_unfolding_all decide)
    (fun j hj => absurd hj (Nat.not_lt_zero j))

/-- C2: with exactly two unconditioned sections, selection routes
negatives to the second section and everything else to the first;
`need_minus_sign` is false whenever there are two sections, so no
implicit minus sign is prepended and the negative value reaches the
second section's number formatter as-is; concretely `0;-0` renders
42, −42, 0 as `42`, `-42`, `0`, the `-` coming from the section's own
literal. -/
theorem C2_two_section_routing (s₀ s₁ : Section) (v : ℚ)
    (opts : FormatOptions) (hc₀ : s₀.condition = none)
    (hc₁ : s₁.condition = none) (hv : v < 0) (hne : s₁.parts ≠ [])
    (hnd : s₁.hasDateParts = false) :
    (∀ w : ℚ, selectSection ⟨[s₀, s₁]⟩ w = if w < 0 then s₁ else s₀) ∧
    (∀ (w : ℚ) (sec : Section) (b : Bool),
      needMinusSign ⟨[s₀, s₁]⟩ sec w b = false) ∧
    tryFormat ⟨[s₀, s₁]⟩ v opts = formatNumber v s₁ opts ∧
    (parse "0;-0" = .ok ⟨[⟨none, none, [.digit .zero]⟩,
        ⟨none, none, [.literal "-", .digit .zero]⟩]⟩ ∧
      tryFormat ⟨[⟨none, none, [.digit .zero]⟩,
        ⟨none, none, [.literal "-", .digit .zero]⟩]⟩ 42 defaultOpts =
        .ok "42" ∧
      tryFormat ⟨[⟨none, none, [.digit .zero]⟩,
        ⟨none, none, [.literal "-", .digit .zero]⟩]⟩ (-42) defaultOpts =
        .ok "-42" ∧
      tryFormat ⟨[⟨none, none, [.digit .zero]⟩,
        ⟨none, none, [.literal "-", .digit .zero]⟩]⟩ 0 defaultOpts =
        .ok "0") := by
  have hcond : ([s₀, s₁].any (fun s => s.condition.isSome)) = false := by
    simp [hc₀, hc₁]
  refine ⟨?_, ?_, ?_, by with_unfolding_all decide⟩
  · intro w
    simp [selectSection, hcond]
  · intro w sec b
    simp [needMinusSign]
  · have hsel : selectSection ⟨[s₀, s₁]⟩ v = s₁ := by
      simp [selectSection, hcond, hv]
    have hnm : needMinusSign ⟨[s₀, s₁]⟩ s₁ v false = false := by
      simp [needMinusSign]
    simp only [tryFormat, hsel, hcond, Bool.false_and, Bool.and_self]
    rw [if_neg hne]
    rw [if_neg (by simp [hnd])]
    rw [hnm]
    cases h : formatNumber v s₁ opts <;> simp [h]

/-- Invariant of the continued-fraction loop: starting from a state
whose current denominator is between 1 and the cap (with a nonnegative
previous denominator) and whose `a` argument is the floor of `x`, the
returned denominator stays between 1 and the cap. -/
theorem cfLoop_den_le (m : ℕ) :
    ∀ (fuel : ℕ) (x : ℚ) (h k : ℤ × ℤ),
      1 ≤ k.1 → 0 ≤ k.2 → k.1 ≤ (m : ℤ) →
      1 ≤ (cfLoop m fuel x ((qfloor x : ℤ) : ℚ) h k).2 ∧
        (cfLoop m fuel x ((qfloor x : ℤ) : ℚ) h k).2 ≤ (m : ℤ) := by
  intro fuel
  induction fuel with
  | zero => intro x h k h1 h2 h3; exact ⟨h1, h3⟩
  | succ n ih =>
      intro x h k h1 h2 h3
      simp only [cfLoop]
      split_ifs with hres hk
      · exact ⟨h1, h3⟩
      · exact ⟨h1, h3⟩
      · have hfl : ((qfloor x : ℤ) : ℚ) ≤ x := by
          rw [qfloor_eq]; exact Int.floor_le x
        have hfl2 : x < ((qfloor x : ℤ) : ℚ) + 1 := by
          rw [qfloor_eq]; exact Int.lt_floor_add_one x
        have hge : 0 ≤ x - ((qfloor x : ℤ) : ℚ) := by linarith
        have hpos : 0 < x - ((qfloor x : ℤ) : ℚ) := by
          rcases eq_or_lt_of_le hge with h' | h'
          · exact absurd (by rw [← h']; norm_num) hres
          · exact h'
        have hlt1 : x - ((qfloor x : ℤ) : ℚ) < 1 := by linarith
        have hx' : 1 < 1 / (x - ((qfloor x : ℤ) : ℚ)) := by
          rw [lt_div_iff hpos]; linarith
        have ha' : 1 ≤ qfloor (1 / (x - ((qfloor x : ℤ) : ℚ))) := by
          rw [qfloor_eq]
          exact Int.le_floor.mpr (by exact_mod_cast hx'.le)
        refine ih (1 / (x - ((qfloor x : ℤ) : ℚ))) _ _ ?_ ?_ ?_
        · have : 1 * 1 ≤ qfloor (1 / (x - ((qfloor x : ℤ) : ℚ))) * k.1 :=
            mul_le_mul ha' h1 (by norm_num) (by linarith)
          simp only []
          nlinarith
        · exact le_trans zero_le_one h1
        · simp only []
          omega

/-- C8 (amended): the denominator produced by `find_best_fraction` for
any value always lies between 1 and the supplied `max_denom` (for a
positive cap), so the cap — which for a mixed fraction is
`10^min(max(numerator_len, k), 7) − 1`, not `10^min(k,7) − 1` — is
honoured; concretely, with the cap 9 the loop cannot reach 1/16 and
falls back to `(0, 1)`, the cap-9 approximation of 0.333333 is 1/3,
and the cap-99 approximation of 1/4 is exactly 1/4. -/
theorem C8_fraction_denominator_bounds (v : ℚ) (m : ℕ) (hm : 1 ≤ m) :
    (1 ≤ (findBestFraction v m).2 ∧ (findBestFraction v m).2 ≤ m) ∧
    findBestFraction (1/16) 9 = (0, 1) ∧
    findBestFraction (333333/1000000) 9 = (1, 3) ∧
    findBestFraction (1/4) 99 = (1, 4) := by
  refine ⟨?_, by with_unfolding_all decide, by with_unfolding_all decide,
    by with_unfolding_all decide⟩
  unfold findBestFraction
  by_cases h1 : v = 0 ∨ m = 0
  · rw [if_pos h1]; exact ⟨le_refl 1, hm⟩
  · rw [if_neg h1]
    by_cases h2 : |v| < 1 / 10 ^ 10
    · rw [if_pos h2]; exact ⟨le_refl 1, hm⟩
    · rw [if_neg h2]
      obtain ⟨hb1, hb2⟩ := cfLoop_den_le m 20 v (qfloor v, 1) (1, 0)
        (by norm_num) (by norm_num) (by show (1 : ℤ) ≤ m; exact_mod_cast hm)
      rcases hcf : cfLoop m 20 v ((qfloor v : ℤ) : ℚ) (qfloor v, 1) (1, 0)
        with ⟨h₀, k₀⟩
      rw [hcf] at hb1 hb2
      simp only [] at hb1 hb2 ⊢
      rw [hcf]
      simp only []
      split_ifs with h3
      · refine ⟨?_, ?_⟩ <;> simp only [] <;> omega
      · refine ⟨?_, ?_⟩ <;> simp only [] <;> omega

/-- C8 witness: the denominator bounds instantiated at value 1/16 with
cap 99, discharging the positive-cap hypothesis. -/
theorem C8_fraction_denominator_bounds_witness :
    1 ≤ (findBestFraction (1/16) 99).2 ∧
      (findBestFraction (1/16) 99).2 ≤ 99 :=
  (C8_fraction_denominator_bounds (1/16) 99 (by norm_num)).1

/-- Splitting at a character that never occurs yields `none`. -/
theorem splitAtChar?_eq_none (t : Char) :
    ∀ cs : List Char, (∀ c ∈ cs, c ≠ t) → splitAtChar? t cs = none
  | [], _ => rfl
  | c :: cs, h => by
      have hc : ¬(c = t) := h c (List.mem_cons_self c cs)
      have ih := splitAtChar?_eq_none t cs
        (fun x hx => h x (List.mem_cons_of_mem c hx))
      simp [splitAtChar?, hc, ih]

/-- Unfolding step of the tokenizer on a successful lexer step. -/
theorem tokenizeGo_cons_ok (fuel : ℕ) (c : Char) (rest : List Char)
    (pos : ℕ) (ts : List SpannedToken) (rest' : List Char) (pos' : ℕ)
    (h : lexStep c rest pos = .ok (ts, rest', pos')) :
    tokenizeGo (fuel + 1) (c :: rest) pos =
      (ts ++ (tokenizeGo fuel rest' pos').1,
        (tokenizeGo fuel rest' pos').2) := by
  rcases hgo : tokenizeGo fuel rest' pos' with ⟨ts₂, e⟩
  simp [tokenizeGo, h, hgo]

/-- Unfolding step of the tokenizer on a failing lexer step. -/
theorem tokenizeGo_cons_err (fuel : ℕ) (c : Char) (rest : List Char)
    (pos : ℕ) (e : ParseError)
    (h : lexStep c rest pos = .error e) :
    tokenizeGo (fuel + 1) (c :: rest) pos = ([], some e) := by
  simp [tokenizeGo, h]

/-- C9: an unterminated opening quote does *not* always make `parse`
fail: when the erroring token is the very first one, `Parser::new`
swallows the error (`unwrap_or` with `Eof`) and the parse loop yields a
single empty section, so `"USD` parses successfully. -/
theorem C9_cex_unterminated_quote_ok :
    parse "\"USD" = .ok ⟨[⟨none, none, []⟩]⟩ := by
  with_unfolding_all rfl

/-- C9 (amended): an unterminated opening quote that is *not* the very
first token fails with `UnexpectedToken` carrying the byte position of
the opening quote: for any tail free of quotes and of `]`, parsing
`0"….` fails at byte position 1. -/
theorem C9_unterminated_quote_fails (t : String)
    (hq : ∀ c ∈ t.data, c ≠ '"') (hb : ∀ c ∈ t.data, c ≠ ']') :
    parse ("0\"" ++ t) = .error (.unexpectedToken 1 '"') := by
  have hdata : ("0\"" ++ t).data = '0' :: '"' :: t.data := rfl
  have hne : ("0\"" ++ t) ≠ "" := by
    intro hcontra
    have hcd : ("0\"" ++ t).data = [] := by rw [hcontra]
    rw [hdata] at hcd
    exact List.noConfusion hcd
  have hsq : splitAtChar? '"' t.data = none :=
    splitAtChar?_eq_none '"' t.data hq
  have hsb : splitAtChar? ']' t.data = none :=
    splitAtChar?_eq_none ']' t.data hb
  have hcg : ciEqChars ('0' :: '"' :: t.data) "General".data = false := rfl
  have hfc : findCharIdx ('0' :: '"' :: t.data) ']' = none := by
    simp [findCharIdx, splitAtChar?, hsb]
  have hgen : generalCheck ('0' :: '"' :: t.data) = none := by
    unfold generalCheck
    rw [hcg]
    simp [hfc]
  have hstep1 : lexStep '0' ('"' :: t.data) 0 =
      .ok ([⟨.zero, 0, 1⟩], '"' :: t.data, 1) := rfl
  have hstep2 : lexStep '"' t.data 1 = .error (.unexpectedToken 1 '"') := by
    simp [lexStep, hsq]
  have htok : tokenizeFrom ('0' :: '"' :: t.data) 0 =
      ([⟨.zero, 0, 1⟩], some (.unexpectedToken 1 '"')) := by
    have key : tokenizeGo (t.data.length + 2 + 1) ('0' :: '"' :: t.data) 0 =
        ([⟨.zero, 0, 1⟩], some (.unexpectedToken 1 '"')) := by
      rw [tokenizeGo_cons_ok (t.data.length + 2) '0' ('"' :: t.data) 0
        _ _ _ hstep1]
      rw [show t.data.length + 2 = (t.data.length + 1) + 1 from rfl]
      rw [tokenizeGo_cons_err (t.data.length + 1) '"' t.data 1 _ hstep2]
      rfl
    exact key
  unfold parse
  rw [if_neg hne, hdata, hgen, htok]
  simp

/-- C9 witness: the amended failure applied to the tail `USD`, whose
characters contain neither a quote nor a closing bracket. -/
theorem C9_unterminated_quote_fails_witness :
    parse "0\"USD" = .error (.unexpectedToken 1 '"') :=
  C9_unterminated_quote_fails "USD" (by decide) (by decide)

/-- C2 witness: the routing theorem instantiated at the `0;-0`
sections and value −42: the formatter output is exactly the second
section's number rendering, with no prepended sign. -/
theorem C2_two_section_routing_witness :
    tryFormat ⟨[⟨none, none, [.digit .zero]⟩,
      ⟨none, none, [.literal "-", .digit .zero]⟩]⟩ (-42) defaultOpts =
      formatNumber (-42) ⟨none, none, [.literal "-", .digit .zero]⟩
        defaultOpts :=
  (C2_two_section_routing ⟨none, none, [.digit .zero]⟩
      ⟨none, none, [.literal "-", .digit .zero]⟩ (-42) defaultOpts rfl rfl
      (by norm_num) (by decide) (by with_unfolding_all decide)).2.2.1

end Ssfmt
